import Mathlib

/-!
Verification of the sloppy-parser-js repair pipeline.

The repository's source (TypeScript) is embedded shallowly: JS strings become
`List Char`, cursor positions become `Nat` indices, the mutable tokenizer /
parser / reconstructor objects become explicit state records, and every
`while` loop becomes fuel-based structural recursion (the fuel is always
instantiated generously at call sites; theorems about loop bodies are
fuel-generic).  JS `JSON.parse` / `JSON.stringify` are modelled by a strict
JSON decoder `strictParse` and a pretty printer `stringifyTop` over the value
type `JVal` (numbers as exact rationals, objects as insertion-ordered
association lists with JS overwrite semantics).
-/

set_option maxHeartbeats 3200000
set_option maxRecDepth 131072

namespace Sloppy

/-! ### Character classes (JS regex classes used by the source) -/

/-- JS `\s` (also the set trimmed by `String.prototype.trim`). -/
def isJsWs (c : Char) : Bool :=
  c = ' ' || c = '\t' || c = '\n' || c = '\r' || c = '\x0b' || c = '\x0c' ||
  c.val = 0xa0 || c.val = 0x1680 || (0x2000 ≤ c.val && c.val ≤ 0x200a) ||
  c.val = 0x2028 || c.val = 0x2029 || c.val = 0x202f || c.val = 0x205f ||
  c.val = 0x3000 || c.val = 0xfeff

def isDigit (c : Char) : Bool := '0' ≤ c && c ≤ '9'

def isAsciiLetter (c : Char) : Bool := ('a' ≤ c && c ≤ 'z') || ('A' ≤ c && c ≤ 'Z')

/-- First character of a bare word: `[a-zA-Z_$]`. -/
def isBareStart (c : Char) : Bool := isAsciiLetter c || c = '_' || c = '$'

/-- Continuation of a bare word: `[a-zA-Z0-9_$-]`. -/
def isBareCont (c : Char) : Bool := isAsciiLetter c || isDigit c || c = '_' || c = '$' || c = '-'

/-- JS `String.prototype.trim` on both ends. -/
def jsTrim (cs : List Char) : List Char :=
  ((cs.dropWhile isJsWs).reverse.dropWhile isJsWs).reverse

/-- Shorthand: the character list of a string literal. -/
def cs (s : String) : List Char := s.toList

/-! ### Token candidates (soft-tokenizer.ts, `TokenCandidate`) -/

inductive TokType where
  | STRING | NUMBER | BOOLEAN | NULL | BARE_WORD
  | BRACE_OPEN | BRACE_CLOSE | BRACKET_OPEN | BRACKET_CLOSE
  | COLON | COMMA | DASH | WHITESPACE | NEWLINE | TEXT
  | FENCE_JSON | FENCE_YAML | FENCE_END
deriving DecidableEq, Repr

structure TokenCandidate where
  type : TokType
  value : List Char
  endPos : Nat
  score : Nat
  repair : Option String
deriving DecidableEq, Repr

/-! ### SoftTokenizer (soft-tokenizer.ts) -/

def isEOF (input : List Char) (pos : Nat) : Bool := input.length ≤ pos

/-- Scan of a quoted string body after the opening quote `q`: a backslash is
dropped and the following character is kept literally; returns the value and
the number of characters consumed (including the closing quote), or `none`
when no closing quote is found. -/
def quoteScan (q : Char) : List Char → Option (List Char × Nat)
  | [] => none
  | c :: r =>
    if c = '\\' then
      match r with
      | [] => none
      | d :: r2 =>
        match quoteScan q r2 with
        | some (v, n) => some (d :: v, n + 2)
        | none => none
    else if c = q then some ([], 1)
    else
      match quoteScan q r with
      | some (v, n) => some (c :: v, n + 1)
      | none => none

def isUniQuote (c : Char) : Bool := c.val = 0x201c || c.val = 0x201d

/-- Scan for a closing unicode quote (no escape handling in the source). -/
def uniScan : List Char → Option (List Char × Nat)
  | [] => none
  | c :: r =>
    if isUniQuote c then some ([], 1)
    else
      match uniScan r with
      | some (v, n) => some (c :: v, n + 1)
      | none => none

def toLowerList (l : List Char) : List Char := l.map Char.toLower

def tryFence (input : List Char) (pos : Nat) : List TokenCandidate :=
  match input.drop pos with
  | '`' :: '`' :: '`' :: r =>
    let lang := r.takeWhile isAsciiLetter
    if toLowerList lang = cs "json" then
      [⟨.FENCE_JSON, cs "```json", pos + 3 + lang.length, 0, none⟩]
    else if toLowerList lang = cs "yaml" then
      [⟨.FENCE_YAML, cs "```yaml", pos + 3 + lang.length, 0, none⟩]
    else
      [⟨.FENCE_END, cs "```", pos + 3, 0, none⟩]
  | _ => []

def tryString (input : List Char) (pos : Nat) : List TokenCandidate :=
  let rest := input.drop pos
  let dq : List TokenCandidate :=
    match rest with
    | '"' :: r =>
      match quoteScan '"' r with
      | some (v, n) => [⟨.STRING, v, pos + 1 + n, 0, none⟩]
      | none => []
    | _ => []
  let sq : List TokenCandidate :=
    match rest with
    | '\'' :: r =>
      let prevOk : Bool :=
        if pos = 0 then true
        else
          match input[pos - 1]? with
          | some c => c = ':' || c = ',' || c = '[' || c = '{'
          | none => false
      if prevOk then
        match quoteScan '\'' r with
        | some (v, n) => [⟨.STRING, v, pos + 1 + n, 1, none⟩]
        | none => []
      else []
    | _ => []
  let uni : List TokenCandidate :=
    match rest with
    | c :: r =>
      if isUniQuote c then
        match uniScan r with
        | some (v, n) => [⟨.STRING, v, pos + 1 + n, 2, some "normalized unicode quotes"⟩]
        | none => []
      else []
    | [] => []
  dq ++ sq ++ uni

def tryNumber (input : List Char) (pos : Nat) : List TokenCandidate :=
  let rest := input.drop pos
  match rest with
  | [] => []
  | c :: _ =>
    if c = '-' || isDigit c then
      let minusPart : List Char := if c = '-' then [c] else []
      let r1 := if c = '-' then rest.drop 1 else rest
      match r1 with
      | [] => []
      | d :: _ =>
        if isDigit d then
          let ds := r1.takeWhile isDigit
          let r2 := r1.drop ds.length
          let fracPart : List Char :=
            match r2 with
            | '.' :: r3 => '.' :: r3.takeWhile isDigit
            | _ => []
          [⟨.NUMBER, minusPart ++ ds ++ fracPart,
            pos + minusPart.length + ds.length + fracPart.length, 0, none⟩]
        else []
    else []

def tryKeyword (input : List Char) (pos : Nat) : List TokenCandidate :=
  let rest := input.drop pos
  (if (cs "true").isPrefixOf rest then [⟨.BOOLEAN, cs "true", pos + 4, 0, none⟩] else []) ++
  (if (cs "false").isPrefixOf rest then [⟨.BOOLEAN, cs "false", pos + 5, 0, none⟩] else []) ++
  (if (cs "null").isPrefixOf rest then [⟨.NULL, cs "null", pos + 4, 0, none⟩] else [])

def tryBareWord (input : List Char) (pos : Nat) : List TokenCandidate :=
  match input.drop pos with
  | [] => []
  | c :: _ =>
    if isBareStart c then
      let value := (input.drop pos).takeWhile isBareCont
      if value = cs "true" || value = cs "false" || value = cs "null" then []
      else [⟨.BARE_WORD, value, pos + value.length, 2, some "bare word (should be quoted)"⟩]
    else []

def punctType (c : Char) : Option TokType :=
  if c = '{' then some .BRACE_OPEN
  else if c = '}' then some .BRACE_CLOSE
  else if c = '[' then some .BRACKET_OPEN
  else if c = ']' then some .BRACKET_CLOSE
  else if c = ':' then some .COLON
  else if c = ',' then some .COMMA
  else if c = '-' then some .DASH
  else none

def tryPunctuation (input : List Char) (pos : Nat) : List TokenCandidate :=
  match input.drop pos with
  | [] => []
  | c :: _ =>
    match punctType c with
    | some t => [⟨t, [c], pos + 1, 0, none⟩]
    | none => []

def tryWhitespace (input : List Char) (pos : Nat) : List TokenCandidate :=
  match input.drop pos with
  | [] => []
  | c :: _ =>
    if isJsWs c then
      let run := (input.drop pos).takeWhile isJsWs
      let t : TokType := if run.contains '\n' then .NEWLINE else .WHITESPACE
      [⟨t, run, pos + run.length, 0, none⟩]
    else []

def tryTextChar (input : List Char) (pos : Nat) : List TokenCandidate :=
  match input.drop pos with
  | [] => []
  | c :: _ => [⟨.TEXT, [c], pos + 1, 0, none⟩]

/-- Stable insertion step for the score sort (`candidates.sort(a.score - b.score)`). -/
def insertByScore (c : TokenCandidate) : List TokenCandidate → List TokenCandidate
  | [] => [c]
  | d :: ds => if d.score < c.score then d :: insertByScore c ds else c :: d :: ds

/-- Stable sort by ascending score (JS `Array.prototype.sort` is stable). -/
def sortByScore : List TokenCandidate → List TokenCandidate
  | [] => []
  | c :: l => insertByScore c (sortByScore l)

def nextTokenCandidates (input : List Char) (pos : Nat) : List TokenCandidate :=
  if isEOF input pos then []
  else
    let cands := tryFence input pos ++ tryString input pos ++ tryNumber input pos ++
      tryKeyword input pos ++ tryBareWord input pos ++ tryPunctuation input pos ++
      tryWhitespace input pos
    let cands := if cands.isEmpty then tryTextChar input pos else cands
    sortByScore cands

def consumeBest (input : List Char) (pos : Nat) : Option TokenCandidate :=
  (nextTokenCandidates input pos).head?

/-- Position after `consumeBest` (the source mutates `this.pos` to `best.endPos`). -/
def afterBest (input : List Char) (pos : Nat) : Nat :=
  match consumeBest input pos with
  | some c => c.endPos
  | none => pos

/-! ### JSON values (the result of `JSON.parse`; numbers in exact decimal
form, objects as insertion-ordered association lists) -/

/-- A repair score: a natural number or `Infinity` (for failed results). -/
inductive Score where
  | fin (n : Nat)
  | inf
deriving DecidableEq, Repr

/-- A JSON number in normalized decimal form `± mant * 10^exp` (`mant` has no
trailing zero unless it is zero; zero is `⟨false, 0, 0⟩`).  Exact — the doubles
arising in this pipeline are all small decimals (JS exponential display for
magnitudes outside `[1e-6, 1e21)` does not arise here). -/
structure DecNum where
  neg : Bool
  mant : Nat
  exp : Int
deriving DecidableEq, Repr

/-- Remove factors of 10 from a mantissa (fuel-bounded; 64 digits suffice for
every number in this development). -/
def stripZeros : Nat → Nat → (Nat × Nat)
  | 0, m => (m, 0)
  | f + 1, m =>
    if m ≠ 0 && m % 10 = 0 then
      match stripZeros f (m / 10) with
      | (m2, k) => (m2, k + 1)
    else (m, 0)

/-- Normalized decimal number from sign, mantissa and exponent. -/
def mkDecNum (neg : Bool) (m : Nat) (e : Int) : DecNum :=
  if m = 0 then ⟨false, 0, 0⟩
  else
    match stripZeros 64 m with
    | (m2, k) => ⟨neg, m2, e + k⟩


inductive JVal where
  | null
  | bool (b : Bool)
  | num (n : DecNum)
  | str (s : List Char)
  | arr (elems : List JVal)
  | obj (fields : List (List Char × JVal))
deriving Repr

/-- JS property write `o[k] = v`: overwrite in place, else append. -/
def jsInsert (k : List Char) (v : JVal) : List (List Char × JVal) → List (List Char × JVal)
  | [] => [(k, v)]
  | (k2, v2) :: r => if k2 = k then (k2, v) :: r else (k2, v2) :: jsInsert k v r

/-- JS property read `o[k]`. -/
def jsGet (k : List Char) : List (List Char × JVal) → Option JVal
  | [] => none
  | (k2, v2) :: r => if k2 = k then some v2 else jsGet k r

/-! ### Strict JSON decoder (model of `JSON.parse`) -/

/-- JSON (RFC 8259) insignificant whitespace. -/
def isJsonWs (c : Char) : Bool := c = ' ' || c = '\t' || c = '\n' || c = '\r'

def skipJWs (l : List Char) : List Char := l.dropWhile isJsonWs

def hexVal (c : Char) : Option Nat :=
  let n := c.toNat
  if 48 ≤ n ∧ n ≤ 57 then some (n - 48)
  else if 97 ≤ n ∧ n ≤ 102 then some (n - 87)
  else if 65 ≤ n ∧ n ≤ 70 then some (n - 55)
  else none

/-- Decode a JSON string literal body (after the opening quote); rejects
unescaped control characters and bad escapes, as `JSON.parse` does.
A `\uXXXX` surrogate (impossible in this development's inputs) decodes to
U+FFFD since a lone UTF-16 surrogate is not a Lean `Char`. -/
def parseJString : List Char → Option (List Char × List Char)
  | [] => none
  | c :: r =>
    if c = '"' then some ([], r)
    else if c = '\\' then
      match r with
      | [] => none
      | e :: r2 =>
        if e = '"' || e = '\\' || e = '/' then
          match parseJString r2 with
          | some (v, rest) => some (e :: v, rest)
          | none => none
        else if e = 'b' then
          match parseJString r2 with
          | some (v, rest) => some ('\x08' :: v, rest)
          | none => none
        else if e = 'f' then
          match parseJString r2 with
          | some (v, rest) => some ('\x0c' :: v, rest)
          | none => none
        else if e = 'n' then
          match parseJString r2 with
          | some (v, rest) => some ('\n' :: v, rest)
          | none => none
        else if e = 'r' then
          match parseJString r2 with
          | some (v, rest) => some ('\r' :: v, rest)
          | none => none
        else if e = 't' then
          match parseJString r2 with
          | some (v, rest) => some ('\t' :: v, rest)
          | none => none
        else if e = 'u' then
          match r2 with
          | h1 :: h2 :: h3 :: h4 :: r3 =>
            match hexVal h1, hexVal h2, hexVal h3, hexVal h4 with
            | some a, some b, some c2, some d =>
              let code := ((a * 16 + b) * 16 + c2) * 16 + d
              let ch := if 0xd800 ≤ code && code ≤ 0xdfff then '�' else Char.ofNat code
              match parseJString r3 with
              | some (v, rest) => some (ch :: v, rest)
              | none => none
            | _, _, _, _ => none
          | _ => none
        else none
    else if c.toNat < 0x20 then none
    else
      match parseJString r with
      | some (v, rest) => some (c :: v, rest)
      | none => none

def digitsToNat (ds : List Char) : Nat :=
  ds.foldl (fun a c => a * 10 + (c.toNat - '0'.toNat)) 0

/-- Optional exponent part of a JSON number. -/
def parseJExp (l : List Char) : Option (Int × List Char) :=
  match l with
  | [] => some (0, [])
  | c :: r =>
    if c = 'e' || c = 'E' then
      let sr : Int × List Char :=
        match r with
        | '+' :: rr => (1, rr)
        | '-' :: rr => (-1, rr)
        | _ => (1, r)
      let ds := sr.2.takeWhile isDigit
      if ds = [] then none
      else some (sr.1 * (digitsToNat ds : Int), sr.2.drop ds.length)
    else some (0, l)

/-- JSON number literal `-?(0|[1-9][0-9]*)(\.[0-9]+)?([eE][+-]?[0-9]+)?`. -/
def parseJNumber (l : List Char) : Option (DecNum × List Char) :=
  let nl : Bool × List Char :=
    match l with
    | '-' :: r => (true, r)
    | _ => (false, l)
  match nl.2 with
  | [] => none
  | d :: r =>
    if ¬ isDigit d then none
    else
      let ir : List Char × List Char :=
        if d = '0' then (['0'], r)
        else (nl.2.takeWhile isDigit, nl.2.dropWhile isDigit)
      let fr : Option (List Char × List Char) :=
        match ir.2 with
        | '.' :: rf =>
          let fds := rf.takeWhile isDigit
          if fds = [] then none else some (fds, rf.drop fds.length)
        | _ => some ([], ir.2)
      match fr with
      | none => none
      | some (fds, r2) =>
        match parseJExp r2 with
        | none => none
        | some (e, rest) =>
          some (mkDecNum nl.1 (digitsToNat (ir.1 ++ fds)) (e - fds.length), rest)

/-- Recursion mode of the strict JSON value parser. -/
inductive JPMode where
  | value
  | objBody (acc : List (List Char × JVal)) (first : Bool)
  | arrBody (acc : List JVal) (first : Bool)

/-- Fuel-based strict JSON value parser; on entering `objBody`/`arrBody` the
leading whitespace is already skipped. -/
def jparse : Nat → JPMode → List Char → Option (JVal × List Char)
  | 0, _, _ => none
  | f + 1, .value, l =>
    match l with
    | [] => none
    | c :: r =>
      if c = '"' then
        match parseJString r with
        | some (s, rest) => some (.str s, rest)
        | none => none
      else if c = 't' then
        if (cs "rue").isPrefixOf r then some (.bool true, r.drop 3) else none
      else if c = 'f' then
        if (cs "alse").isPrefixOf r then some (.bool false, r.drop 4) else none
      else if c = 'n' then
        if (cs "ull").isPrefixOf r then some (.null, r.drop 3) else none
      else if c = '{' then jparse f (.objBody [] true) (skipJWs r)
      else if c = '[' then jparse f (.arrBody [] true) (skipJWs r)
      else if c = '-' || isDigit c then
        match parseJNumber l with
        | some (q, rest) => some (.num q, rest)
        | none => none
      else none
  | f + 1, .objBody acc first, l =>
    match l with
    | [] => none
    | c :: r =>
      if first && c = '}' then some (.obj acc, r)
      else if c = '"' then
        match parseJString r with
        | some (k, r1) =>
          match skipJWs r1 with
          | ':' :: r2 =>
            match jparse f .value (skipJWs r2) with
            | some (v, r3) =>
              let acc2 := jsInsert k v acc
              match skipJWs r3 with
              | ',' :: r4 => jparse f (.objBody acc2 false) (skipJWs r4)
              | '}' :: r4 => some (.obj acc2, r4)
              | _ => none
            | none => none
          | _ => none
        | none => none
      else none
  | f + 1, .arrBody acc first, l =>
    match l with
    | [] => none
    | c :: r =>
      if first && c = ']' then some (.arr acc.reverse, r)
      else
        match jparse f .value l with
        | some (v, r1) =>
          match skipJWs r1 with
          | ',' :: r2 => jparse f (.arrBody (v :: acc) false) (skipJWs r2)
          | ']' :: r2 => some (.arr (v :: acc).reverse, r2)
          | _ => none
        | none => none

/-- Model of `JSON.parse`: `none` when it would throw. -/
def strictParse (l : List Char) : Option JVal :=
  match jparse (2 * l.length + 8) .value (skipJWs l) with
  | some (v, rest) => if skipJWs rest = [] then some v else none
  | none => none

/-! ### Pretty printer (model of `JSON.stringify(x, null, 2)`) -/

def hexDigit (n : Nat) : Char :=
  if n < 10 then Char.ofNat ('0'.toNat + n) else Char.ofNat ('a'.toNat + n - 10)

def escapeJChar (c : Char) : List Char :=
  if c = '"' then cs "\\\""
  else if c = '\\' then cs "\\\\"
  else if c = '\n' then cs "\\n"
  else if c = '\r' then cs "\\r"
  else if c = '\t' then cs "\\t"
  else if c.toNat = 8 then cs "\\b"
  else if c.toNat = 12 then cs "\\f"
  else if c.toNat < 0x20 then cs "\\u00" ++ [hexDigit (c.toNat / 16), hexDigit (c.toNat % 16)]
  else [c]

def escapeJString (s : List Char) : List Char := (s.map escapeJChar).flatten

/-- Decimal rendering of a number, as JS renders the doubles arising here. -/
def printJNum (q : DecNum) : List Char :=
  if q.mant = 0 then ['0']
  else
    let sign : List Char := if q.neg then ['-'] else []
    let ds := Nat.toDigits 10 q.mant
    match q.exp with
    | .ofNat e => sign ++ ds ++ List.replicate e '0'
    | .negSucc e1 =>
      let k := e1 + 1
      if k < ds.length then
        sign ++ ds.take (ds.length - k) ++ ['.'] ++ ds.drop (ds.length - k)
      else
        sign ++ '0' :: '.' :: List.replicate (k - ds.length) '0' ++ ds

/-- `JSON.stringify(v, null, 2)` at indentation `ind`, with recursion fuel on
nesting depth. -/
def stringifyVal : Nat → Nat → JVal → List Char
  | 0, _, _ => []
  | f + 1, ind, v =>
    match v with
    | .null => cs "null"
    | .bool true => cs "true"
    | .bool false => cs "false"
    | .num q => printJNum q
    | .str s => '"' :: escapeJString s ++ ['"']
    | .arr [] => cs "[]"
    | .arr xs =>
      let inner := xs.map fun x =>
        List.replicate (ind + 2) ' ' ++ stringifyVal f (ind + 2) x
      '[' :: '\n' :: List.intercalate (cs ",\n") inner ++
        '\n' :: List.replicate ind ' ' ++ [']']
    | .obj [] => cs "{}"
    | .obj fs =>
      let inner := fs.map fun kv =>
        List.replicate (ind + 2) ' ' ++ '"' :: escapeJString kv.1 ++ cs "\": " ++
          stringifyVal f (ind + 2) kv.2
      '{' :: '\n' :: List.intercalate (cs ",\n") inner ++
        '\n' :: List.replicate ind ' ' ++ ['}']

/-- `JSON.stringify(v, null, 2)`. -/
def stringifyTop (v : JVal) : List Char := stringifyVal 64 0 v

/-! ### Read-Repair Reconstructor (reconstructor.ts) -/

/-- Mutable reconstructor state: cursor, repair log, score. -/
structure RecState where
  pos : Nat
  repairs : List String
  score : Nat
deriving Repr

/-- `skipWhitespace()`: consume WHITESPACE/NEWLINE tokens. -/
def skipWsTok (input : List Char) : Nat → Nat → Nat
  | 0, pos => pos
  | f + 1, pos =>
    match consumeBest input pos with
    | some t =>
      if t.type = .WHITESPACE || t.type = .NEWLINE then skipWsTok input f t.endPos else pos
    | none => pos

/-- `peek(type)`. -/
def peekIs (input : List Char) (pos : Nat) (t : TokType) : Bool :=
  match consumeBest input pos with
  | some c => c.type = t
  | none => false

/-- `consume(type)`: the position after the token when it is of type `t`. -/
def consumeType (input : List Char) (pos : Nat) (t : TokType) : Option Nat :=
  match consumeBest input pos with
  | some c => if c.type = t then some c.endPos else none
  | none => none

/-- Loop of `skipCommentRestOfLine`: consume up to and including the newline. -/
def skipCommentLoop (input : List Char) : Nat → Nat → Nat
  | 0, pos => pos
  | f + 1, pos =>
    if isEOF input pos then pos
    else
      match consumeBest input pos with
      | none => pos
      | some t => if t.type = .NEWLINE then t.endPos else skipCommentLoop input f t.endPos

/-- `skipCommentRestOfLine()`. -/
def skipCommentLine (input : List Char) (f : Nat) (s : RecState) : RecState :=
  { pos := skipCommentLoop input f s.pos,
    repairs := s.repairs ++ ["removed comment"],
    score := s.score + 1 }

/-- `skipComment()`: after whitespace, drop a `#` comment to end of line. -/
def skipComment (input : List Char) (f : Nat) (s : RecState) : RecState :=
  let p := skipWsTok input f s.pos
  match consumeBest input p with
  | some t =>
    if t.type = .TEXT && t.value = ['#'] then skipCommentLine input f { s with pos := p }
    else { s with pos := p }
  | none => { s with pos := p }

/-- Multiword-key extension loop inside `parseKey`. -/
def keyExtendLoop (input : List Char) : Nat → Nat → (List Char × Nat)
  | 0, pos => ([], pos)
  | f + 1, pos =>
    if isEOF input pos then ([], pos)
    else
      match consumeBest input pos with
      | none => ([], pos)
      | some t =>
        if t.type = .NEWLINE || t.type = .BRACE_CLOSE || t.type = .COMMA then ([], pos)
        else if t.type = .BARE_WORD then
          let er := keyExtendLoop input f t.endPos
          (t.value ++ er.1, er.2)
        else if t.type = .WHITESPACE then
          let er := keyExtendLoop input f t.endPos
          (' ' :: er.1, er.2)
        else ([], pos)

/-- `parseKey()`: quoted string verbatim, or a bare word possibly extended to a
multiword key when no colon follows. -/
def parseKey (input : List Char) (f : Nat) (s : RecState) : Option (List Char) × RecState :=
  match consumeBest input s.pos with
  | none => (none, s)
  | some t =>
    if t.type = .STRING then
      (some ('"' :: t.value ++ ['"']), { s with pos := t.endPos })
    else if t.type = .BARE_WORD then
      let pos1 := t.endPos
      let nextCands := nextTokenCandidates input pos1
      let hasColon : Bool :=
        match nextCands with
        | [] => false
        | c0 :: restC =>
          c0.type = .COLON ||
          (c0.type = .WHITESPACE &&
            (match restC with
             | c1 :: _ => c1.type = .COLON
             | [] => false))
      let ext : List Char × Nat := if hasColon then ([], pos1) else keyExtendLoop input f pos1
      (some ('"' :: jsTrim (t.value ++ ext.1) ++ ['"']),
       { pos := ext.2
         repairs := s.repairs ++ ["quoted bare key"]
         score := s.score + 2 })
    else (none, s)

/-- Bare-value accumulation loop inside `parseValue` (consumes words,
whitespace, newlines, numbers and raw text until a structural boundary or an
inline `#` comment). -/
def bareValueLoop (input : List Char) : Nat → RecState → (List Char × RecState)
  | 0, s => ([], s)
  | f + 1, s =>
    match consumeBest input s.pos with
    | none => ([], s)
    | some c =>
      if c.type = .COMMA || c.type = .BRACE_CLOSE || c.type = .BRACKET_CLOSE then ([], s)
      else if c.type = .TEXT && c.value = ['#'] then
        let s2 := skipCommentLine input f s
        ([], { s2 with
                repairs := s2.repairs ++ ["removed inline comment after value"]
                score := s2.score + 1 })
      else if c.type = .BARE_WORD || c.type = .WHITESPACE || c.type = .NEWLINE ||
          c.type = .NUMBER || c.type = .TEXT then
        let vr := bareValueLoop input f { s with pos := c.endPos }
        (c.value ++ vr.1, vr.2)
      else ([], s)

/-- Consecutive raw-TEXT accumulation loop inside `parseValue`. -/
def textValueLoop (input : List Char) : Nat → Nat → (List Char × Nat)
  | 0, pos => ([], pos)
  | f + 1, pos =>
    match consumeBest input pos with
    | none => ([], pos)
    | some c =>
      if c.type = .TEXT then
        let vr := textValueLoop input f c.endPos
        (c.value ++ vr.1, vr.2)
      else ([], pos)

/-- Call tags of the mutually recursive part of the reconstructor
(`parseObject` / `parseArray` / `parseKeyValue` / `parseValue` and the two
member loops), dispatched through one fuel-indexed function so that the
recursion stays structural. -/
inductive RecCall where
  | value
  | object
  | array
  | keyValue
  | objLoop (out : List Char) (needsComma : Bool)
  | arrLoop (out : List Char) (needsComma : Bool)

/-- The reconstructor's grammar-directed core.  `none` is produced only by
`parseObject`/`parseArray` when the opener is absent (as in the source) or on
fuel exhaustion (which the generous fuel at the entry point rules out). -/
def recRun (input : List Char) : Nat → RecCall → RecState → (Option (List Char) × RecState)
  | 0, _, s => (none, s)
  | f + 1, .object, s =>
    let s1 := { s with pos := skipWsTok input (input.length + 1) s.pos }
    match consumeType input s1.pos .BRACE_OPEN with
    | none => (none, s1)
    | some p => recRun input f (.objLoop ['{'] false) { s1 with pos := p }
  | f + 1, .objLoop out needsComma, s =>
    if isEOF input s.pos then
      (some (out ++ ['}']),
       { s with repairs := s.repairs ++ ["added missing closing brace"], score := s.score + 3 })
    else
      let s1 := { s with pos := skipWsTok input (input.length + 1) s.pos }
      if peekIs input s1.pos .BRACE_CLOSE then
        match consumeType input s1.pos .BRACE_CLOSE with
        | some p => (some (out ++ ['}']), { s1 with pos := p })
        | none => (none, s1)
      else
        let st2 : List Char × RecState :=
          if needsComma then
            match consumeType input s1.pos .COMMA with
            | some p => (out ++ [','], { s1 with pos := skipWsTok input (input.length + 1) p })
            | none =>
              (out ++ [','],
               { pos := skipWsTok input (input.length + 1) s1.pos
                 repairs := s1.repairs ++ ["added missing comma"]
                 score := s1.score + 1 })
          else (out, s1)
        match recRun input f .keyValue st2.2 with
        | (some kv, s3) => recRun input f (.objLoop (st2.1 ++ kv) true) s3
        | (none, s3) =>
          recRun input f (.objLoop st2.1 needsComma) { s3 with pos := afterBest input s3.pos }
  | f + 1, .keyValue, s =>
    let s1 := { s with pos := skipWsTok input (input.length + 1) s.pos }
    match parseKey input (input.length + 1) s1 with
    | (none, s2) => (none, s2)
    | (some key, s2) =>
      let s3 := { s2 with pos := skipWsTok input (input.length + 1) s2.pos }
      match consumeType input s3.pos .COLON with
      | none =>
        (some (key ++ cs ": null"),
         { s3 with
           repairs := s3.repairs ++ ["added missing colon and null value"]
           score := s3.score + 3 })
      | some p =>
        let s4 := { s3 with pos := skipWsTok input (input.length + 1) p }
        match recRun input f .value s4 with
        | (some v, s5) => (some (key ++ cs ": " ++ v), skipComment input (input.length + 1) s5)
        | (none, s5) => (none, s5)
  | f + 1, .value, s =>
    match consumeBest input s.pos with
    | none => (some (cs "null"), s)
    | some t =>
      if t.type = .STRING then (some ('"' :: t.value ++ ['"']), { s with pos := t.endPos })
      else if t.type = .NUMBER then (some t.value, { s with pos := t.endPos })
      else if t.type = .BOOLEAN then (some t.value, { s with pos := t.endPos })
      else if t.type = .NULL then (some (cs "null"), { s with pos := t.endPos })
      else if t.type = .BRACE_OPEN then
        match recRun input f .object s with
        | (some o, s2) => (some o, s2)
        | (none, s2) => (some ['{', '}'], s2)
      else if t.type = .BRACKET_OPEN then
        match recRun input f .array s with
        | (some a, s2) => (some a, s2)
        | (none, s2) => (some ['[', ']'], s2)
      else if t.type = .BARE_WORD || t.type = .NEWLINE then
        let vr := bareValueLoop input (input.length + 1) s
        if vr.1 = [] then (some (cs "null"), vr.2)
        else
          (some ('"' :: jsTrim vr.1 ++ ['"']),
           { vr.2 with
             repairs := vr.2.repairs ++ ["quoted bare value"]
             score := vr.2.score + 2 })
      else if t.type = .TEXT then
        let vr := textValueLoop input (input.length + 1) s.pos
        (some ('"' :: vr.1 ++ ['"']),
         { pos := vr.2
           repairs := s.repairs ++ ["quoted unicode/emoji value"]
           score := s.score + 1 })
      else (some (cs "null"), s)
  | f + 1, .array, s =>
    match consumeType input s.pos .BRACKET_OPEN with
    | none => (none, s)
    | some p => recRun input f (.arrLoop ['['] false) { s with pos := p }
  | f + 1, .arrLoop out needsComma, s =>
    if isEOF input s.pos then
      (some (out ++ [']']),
       { s with repairs := s.repairs ++ ["added missing closing bracket"], score := s.score + 3 })
    else
      let s1 := { s with pos := skipWsTok input (input.length + 1) s.pos }
      if peekIs input s1.pos .BRACKET_CLOSE then
        match consumeType input s1.pos .BRACKET_CLOSE with
        | some p => (some (out ++ [']']), { s1 with pos := p })
        | none => (none, s1)
      else
        let st2 : List Char × RecState :=
          if needsComma then
            match consumeType input s1.pos .COMMA with
            | none =>
              (out ++ [','],
               { pos := skipWsTok input (input.length + 1) s1.pos
                 repairs := s1.repairs ++ ["added missing comma"]
                 score := s1.score + 1 })
            | some p => (out ++ [','], { s1 with pos := skipWsTok input (input.length + 1) p })
          else (out, s1)
        match recRun input f .value st2.2 with
        | (some v, s3) => recRun input f (.arrLoop (st2.1 ++ v) true) s3
        | (none, s3) => (none, s3)

/-- Result of one reconstructor (`ReconstructResult` / `YAMLReconstructResult`);
failure carries score `⊤` (`Infinity`). -/
structure ReconResult where
  success : Bool
  json : Option (List Char)
  repairs : List String
  warnings : List String
  score : Score
deriving Repr

def reconFuel (input : List Char) : Nat := 8 * input.length + 64

/-- The raw rewrite phase of `reconstructJSON()`: skip whitespace, dispatch on
the first candidate (array or object), and run the grammar-directed core. -/
def reconRaw (input : List Char) : Option (List Char) × RecState :=
  let s0 : RecState := ⟨skipWsTok input (input.length + 1) 0, [], 0⟩
  match nextTokenCandidates input s0.pos with
  | [] => (none, s0)
  | c :: _ =>
    if c.type = .BRACKET_OPEN then recRun input (reconFuel input) .array s0
    else recRun input (reconFuel input) .object s0

/-- `ReadRepairReconstructor.reconstructJSON()`: rewrite, then validate the
output by decoding it. -/
def reconstructJSON (input : List Char) : ReconResult :=
  match reconRaw input with
  | (none, s) => ⟨false, none, s.repairs, ["Failed to reconstruct as JSON"], .inf⟩
  | (some j, s) =>
    match strictParse j with
    | some _ => ⟨true, some j, s.repairs, [], .fin s.score⟩
    | none => ⟨false, none, s.repairs, ["Invalid JSON"], .inf⟩

/-! ### YAML Reconstructor (yaml-reconstructor.ts) -/

/-- Mutable YAML-reconstructor state (`pos`, `repairs`, `score`, `currentKey`,
`inArray`, plus the object being built). -/
structure YState where
  pos : Nat
  repairs : List String
  score : Nat
  currentKey : Option (List Char)
  inArray : Bool
  obj : List (List Char × JVal)
deriving Repr

/-- `peekDash()`. -/
def peekDash (input : List Char) (pos : Nat) : Bool :=
  match (nextTokenCandidates input pos).head? with
  | some c => c.type = .DASH
  | none => false

/-- `parseKey()` of the YAML reconstructor. -/
def yamlParseKey (input : List Char) (pos : Nat) : Option (List Char × Nat) :=
  match consumeBest input pos with
  | none => none
  | some t =>
    if t.type = .STRING || t.type = .BARE_WORD then some (t.value, t.endPos) else none

/-- JS `parseFloat` on a `NUMBER` token (exact decimal). -/
def parseFloatDec (neg : Bool) (v : List Char) : DecNum :=
  let ip := v.takeWhile isDigit
  match v.drop ip.length with
  | '.' :: fr =>
    let fds := fr.takeWhile isDigit
    mkDecNum neg (digitsToNat (ip ++ fds)) (-(fds.length : Int))
  | _ => mkDecNum neg (digitsToNat ip) 0

def parseFloatQ (v : List Char) : DecNum :=
  match v with
  | '-' :: r => parseFloatDec true r
  | _ => parseFloatDec false v

/-- Brace-balanced capture loop of `parseInlineJSON` (depth as in the source,
which decrements before testing for zero). -/
def inlineCapture (input : List Char) : Nat → Nat → Int → List Char → (List Char × Nat)
  | 0, pos, _, acc => (acc, pos)
  | f + 1, pos, depth, acc =>
    if isEOF input pos then (acc, pos)
    else
      match consumeBest input pos with
      | none => (acc, pos)
      | some t =>
        let acc2 := acc ++ t.value
        let depth1 : Int := if t.type = .BRACE_OPEN then depth + 1 else depth
        if t.type = .BRACE_CLOSE then
          if depth1 - 1 = 0 then (acc2, t.endPos)
          else inlineCapture input f t.endPos (depth1 - 1) acc2
        else inlineCapture input f t.endPos depth1 acc2

/-- JS falsiness of `obj[currentKey]` (`undefined`, `null`, `false`, `0`, `""`). -/
def isFalsyOpt : Option JVal → Bool
  | none => true
  | some .null => true
  | some (.bool b) => !b
  | some (.num q) => q.mant = 0
  | some (.str s) => s.isEmpty
  | some (.arr _) => false
  | some (.obj _) => false

/-- `parseInlineJSON()`: capture `{...}` and delegate to the JSON
reconstructor; on failure the captured text itself is the value. -/
def parseInlineJSON (input : List Char) (s : YState) : JVal × YState :=
  let cap := inlineCapture input (input.length + 1) s.pos 0 []
  let s1 := { s with pos := cap.2 }
  let r := reconstructJSON cap.1
  match r.success, r.json with
  | true, some j =>
    match strictParse j with
    | some v =>
      (v, { s1 with
            repairs := s1.repairs ++ ["parsed inline JSON in YAML"]
            score := s1.score + 2 })
    | none => (.str cap.1, s1)
  | _, _ => (.str cap.1, s1)

/-- `parseValue()` of the YAML reconstructor; `none` is JS `null` (also
produced by an explicit `null` token, which the caller then discards from
list items exactly as the source does). -/
def yamlParseValue (input : List Char) (s : YState) : Option JVal × YState :=
  match consumeBest input s.pos with
  | none => (none, s)
  | some t =>
    if t.type = .STRING then (some (.str t.value), { s with pos := t.endPos })
    else if t.type = .NUMBER then (some (.num (parseFloatQ t.value)), { s with pos := t.endPos })
    else if t.type = .BOOLEAN then
      (some (.bool (t.value = cs "true")), { s with pos := t.endPos })
    else if t.type = .NULL then (none, { s with pos := t.endPos })
    else if t.type = .BRACE_OPEN then
      let vs := parseInlineJSON input s
      (some vs.1, vs.2)
    else if t.type = .BARE_WORD then (some (.str t.value), { s with pos := t.endPos })
    else (none, s)

/-- `parseListItem()`: dash, whitespace, then a value. -/
def yamlParseListItem (input : List Char) (s : YState) : Option JVal × YState :=
  match consumeType input s.pos .DASH with
  | none => (none, s)
  | some p1 =>
    yamlParseValue input { s with pos := skipWsTok input (input.length + 1) p1 }

/-- A parsed `KEY:`/`KEY: VALUE` line; `hasValue = false` means bare `KEY:`.
`value = none` with `hasValue = true` is a JS-`null` inline value. -/
structure YamlKV where
  key : List Char
  value : Option JVal
  hasValue : Bool

/-- `parseKeyValue()` of the YAML reconstructor (restores the checkpoint on
failure). -/
def yamlParseKeyValue (input : List Char) (s : YState) : Option YamlKV × YState :=
  match yamlParseKey input s.pos with
  | none => (none, s)
  | some (key, p1) =>
    let p2 := skipWsTok input (input.length + 1) p1
    match consumeType input p2 .COLON with
    | none => (none, s)
    | some p3 =>
      let p4 := skipWsTok input (input.length + 1) p3
      if peekIs input p4 .NEWLINE || peekDash input p4 || isEOF input p4 then
        (some ⟨key, none, false⟩, { s with pos := p4 })
      else
        let vs := yamlParseValue input { s with pos := p4 }
        (some ⟨key, vs.1, true⟩, vs.2)

/-- Skip to just past the next newline (`peekNextLineIsList` first phase). -/
def skipToLineEnd (input : List Char) : Nat → Nat → Nat
  | 0, pos => pos
  | f + 1, pos =>
    if isEOF input pos then pos
    else
      match consumeBest input pos with
      | none => pos
      | some t => if t.type = .NEWLINE then t.endPos else skipToLineEnd input f t.endPos

/-- `peekNextLineIsList()` (position restored; pure here). -/
def peekNextLineIsList (input : List Char) (pos : Nat) : Bool :=
  let p1 := skipToLineEnd input (input.length + 1) pos
  peekDash input (skipWsTok input (input.length + 1) p1)

/-- One iteration of the `parseYAMLDocument` loop (entered after the
whitespace skip, at a non-EOF position). -/
def yamlDocBody (input : List Char) (s : YState) : YState :=
  if peekDash input s.pos then
    let is1 := yamlParseListItem input s
    match is1.1, s.currentKey with
    | some it, some ck =>
      let s1 := is1.2
      let obj1 := if isFalsyOpt (jsGet ck s1.obj) then jsInsert ck (.arr []) s1.obj else s1.obj
      let obj2 :=
        match jsGet ck obj1 with
        | some (.arr xs) => jsInsert ck (.arr (xs ++ [it])) obj1
        | some v => jsInsert ck (.arr [v, it]) obj1
        | none => jsInsert ck (.arr [it]) obj1
      { s1 with
        obj := obj2
        repairs := s1.repairs ++ ["added list item"]
        score := s1.score + 1 }
    | _, _ => is1.2
  else
    match yamlParseKeyValue input s with
    | (some kv, s1) =>
      if kv.hasValue then
        { s1 with
          obj := jsInsert kv.key (kv.value.getD .null) s1.obj
          currentKey := none
          repairs := s1.repairs ++ ["converted YAML key-value"]
          score := s1.score + 1 }
      else if peekNextLineIsList input s1.pos then
        { s1 with
          obj := jsInsert kv.key (.arr []) s1.obj
          currentKey := some kv.key
          inArray := true
          repairs := s1.repairs ++ ["converted YAML key-value"]
          score := s1.score + 1 }
      else
        { s1 with
          obj := jsInsert kv.key (.obj []) s1.obj
          currentKey := some kv.key
          repairs := s1.repairs ++ ["converted YAML key-value"]
          score := s1.score + 1 }
    | (none, s1) => { s1 with pos := afterBest input s1.pos }

/-- The `parseYAMLDocument` while loop. -/
def yamlDocLoop (input : List Char) : Nat → YState → YState
  | 0, s => s
  | f + 1, s =>
    if isEOF input s.pos then s
    else
      let s1 := { s with pos := skipWsTok input (input.length + 1) s.pos }
      if isEOF input s1.pos then s1
      else yamlDocLoop input f (yamlDocBody input s1)

/-- `YAMLReconstructor.reconstructYAML()`: base score 5 (YAML mode penalty),
output pretty-printed and validated by decoding. -/
def reconstructYAML (input : List Char) : ReconResult :=
  let s1 := yamlDocLoop input (2 * input.length + 8) ⟨0, [], 5, none, false, []⟩
  let json := stringifyTop (.obj s1.obj)
  match strictParse json with
  | some _ => ⟨true, some json, s1.repairs, [], .fin s1.score⟩
  | none => ⟨false, none, s1.repairs, ["YAML reconstruction failed"], .inf⟩

/-! ### Repair orchestrator (repairer.ts, `repairObjectCandidate`) -/

inductive RepairMode where
  | jsonIsh | yamlIsh
deriving DecidableEq, Repr

structure RepairResult where
  success : Bool
  object : Option JVal
  repairedText : Option (List Char)
  warnings : List String
  repairs : List String
  score : Score
  mode : RepairMode

/-- `repairObjectCandidate(raw)`: JSON reconstruction first, then YAML, then a
failed result; a reconstructor's output counts only when it decodes. -/
def repairObjectCandidate (raw : List Char) : RepairResult :=
  let jr := reconstructJSON raw
  let viaJson : Option RepairResult :=
    match jr.success, jr.json with
    | true, some j =>
      match strictParse j with
      | some v => some ⟨true, some v, some j, [], jr.repairs, jr.score, .jsonIsh⟩
      | none => none
    | _, _ => none
  match viaJson with
  | some r => r
  | none =>
    let yr := reconstructYAML raw
    let viaYaml : Option RepairResult :=
      match yr.success, yr.json with
      | true, some j =>
        match strictParse j with
        | some v => some ⟨true, some v, some j, [], yr.repairs, yr.score, .yamlIsh⟩
        | none => none
      | _, _ => none
    match viaYaml with
    | some r => r
    | none => ⟨false, none, none, ["All reconstruction attempts failed"], [], .inf, .jsonIsh⟩

/-! ### Soft grammar segmenter (soft-parser.ts, segmenter.ts) -/

/-- A segmented block: narration text or an object candidate (`types.ts`). -/
inductive SegmentedBlock where
  | text (text : List Char)
  | objectCandidate (raw : List Char)
deriving DecidableEq, Repr

/-- A `ParsePath`: blocks so far, cumulative score, repair log, cursor. -/
structure ParsePath where
  blocks : List SegmentedBlock
  score : Nat
  repairs : List String
  position : Nat
deriving Repr

/-- Backward scan of `looksLikeYAMLKey`: only whitespace between the cursor
and the start of its line (an out-of-range read is JS `undefined`, which the
source treats as a blocking character). -/
def atLineStart (input : List Char) : Nat → Bool
  | 0 => true
  | n + 1 =>
    let c := (input[n]?).getD '\x00'
    if c = '\n' || c = '\r' then true
    else if c = ' ' || c = '\t' then atLineStart input n
    else false

/-- `consumeBest` skipping WHITESPACE tokens, as in `looksLikeYAMLKey`. -/
def nextNonWsTok (input : List Char) : Nat → Nat → Option TokenCandidate × Nat
  | 0, pos => (none, pos)
  | f + 1, pos =>
    match consumeBest input pos with
    | none => (none, pos)
    | some t =>
      if t.type = .WHITESPACE then nextNonWsTok input f t.endPos else (some t, t.endPos)

/-- `looksLikeYAMLKey()`: start of line, then a bare word or string, then a
colon. -/
def looksLikeYAMLKey (input : List Char) (pos : Nat) : Bool :=
  if atLineStart input pos then
    let tk := nextNonWsTok input (input.length + 1) pos
    let hasWord :=
      match tk.1 with
      | some t => t.type = .BARE_WORD || t.type = .STRING
      | none => false
    let hasColon :=
      match consumeBest input tk.2 with
      | some t => t.type = .COLON
      | none => false
    hasWord && hasColon
  else false

/-- `looksLikeObjectStart()`: any candidate is a fence or opener, or a YAML
key pattern begins here. -/
def looksLikeObjectStart (input : List Char) (pos : Nat) : Bool :=
  let cands := nextTokenCandidates input pos
  if cands.isEmpty then false
  else
    cands.any (fun c => c.type = .FENCE_JSON || c.type = .FENCE_YAML ||
      c.type = .BRACE_OPEN || c.type = .BRACKET_OPEN) ||
    looksLikeYAMLKey input pos

/-- Raw-character accumulation of `parseTextBlock` (stops at an object start
or end of input). -/
def textScan (input : List Char) : Nat → Nat → (List Char × Nat)
  | 0, pos => ([], pos)
  | f + 1, pos =>
    if isEOF input pos then ([], pos)
    else if looksLikeObjectStart input pos then ([], pos)
    else
      match input[pos]? with
      | some c =>
        let tr := textScan input f (pos + 1)
        (c :: tr.1, tr.2)
      | none => ([], pos)

/-- `parseTextBlock`: `none` when the trimmed text is empty.  The second
component is the tokenizer position reached (used by the caller's
skip-one-character fallback). -/
def parseTextBlock (input : List Char) (f : Nat) (path : ParsePath) : Option ParsePath × Nat :=
  let tr := textScan input f path.position
  if (jsTrim tr.1).length = 0 then (none, tr.2)
  else
    (some { blocks := path.blocks ++ [.text (jsTrim tr.1)]
            score := path.score
            repairs := path.repairs
            position := tr.2 }, tr.2)

/-- Verbatim token accumulation shared by the candidate sub-parsers. -/
structure SegAcc where
  raw : List Char
  score : Nat
  repairs : List String
  pos : Nat
deriving Repr

def segPush (a : SegAcc) (t : TokenCandidate) : SegAcc :=
  { raw := a.raw ++ t.value
    score := a.score + t.score
    repairs := a.repairs ++ (match t.repair with | some r => [r] | none => [])
    pos := t.endPos }

/-- Fenced-capture loop: consume until a FENCE_END candidate appears. -/
def fenceLoop (input : List Char) : Nat → SegAcc → SegAcc
  | 0, a => a
  | f + 1, a =>
    if isEOF input a.pos then a
    else
      match (nextTokenCandidates input a.pos).find? (fun c => c.type = .FENCE_END) with
      | some cf => { a with pos := cf.endPos }
      | none =>
        match consumeBest input a.pos with
        | some t => fenceLoop input f (segPush a t)
        | none => a

/-- `tryParseFencedJSON` (the second component of each attempt is the
tokenizer position it leaves behind). -/
def tryParseFencedJSON (input : List Char) (f : Nat) (path : ParsePath) :
    Option ParsePath × Nat :=
  match (nextTokenCandidates input path.position).find? (fun c => c.type = .FENCE_JSON) with
  | none => (none, path.position)
  | some fence =>
    let a := fenceLoop input f ⟨[], path.score + fence.score,
      path.repairs ++ (match fence.repair with | some r => [r] | none => []), fence.endPos⟩
    (some { blocks := path.blocks ++ [.objectCandidate (jsTrim a.raw)]
            score := a.score
            repairs := a.repairs
            position := a.pos }, a.pos)

/-- `tryParseFencedYAML` (adds the YAML mode penalty of 5). -/
def tryParseFencedYAML (input : List Char) (f : Nat) (path : ParsePath) :
    Option ParsePath × Nat :=
  match (nextTokenCandidates input path.position).find? (fun c => c.type = .FENCE_YAML) with
  | none => (none, path.position)
  | some fence =>
    let a := fenceLoop input f ⟨[], path.score + fence.score + 5,
      (path.repairs ++ ["YAML mode"]) ++ (match fence.repair with | some r => [r] | none => []),
      fence.endPos⟩
    (some { blocks := path.blocks ++ [.objectCandidate (jsTrim a.raw)]
            score := a.score
            repairs := a.repairs
            position := a.pos }, a.pos)

/-- Depth-tracking loop of `tryParseJSONObject` (both closer kinds decrement,
as in the source). -/
def jsonDepthLoop (input : List Char) : Nat → SegAcc → Nat → (SegAcc × Nat)
  | 0, a, depth => (a, depth)
  | f + 1, a, depth =>
    if isEOF input a.pos || depth = 0 then (a, depth)
    else
      match consumeBest input a.pos with
      | none => (a, depth)
      | some t =>
        let depth2 :=
          if t.type = .BRACE_OPEN || t.type = .BRACKET_OPEN then depth + 1
          else if t.type = .BRACE_CLOSE || t.type = .BRACKET_CLOSE then depth - 1
          else depth
        jsonDepthLoop input f (segPush a t) depth2

/-- `tryParseJSONObject`: a never-balanced opener is a failed parse. -/
def tryParseJSONObject (input : List Char) (f : Nat) (path : ParsePath) :
    Option ParsePath × Nat :=
  match (nextTokenCandidates input path.position).find?
      (fun c => c.type = .BRACE_OPEN || c.type = .BRACKET_OPEN) with
  | none => (none, path.position)
  | some opener =>
    let ad := jsonDepthLoop input f ⟨opener.value, path.score + opener.score,
      path.repairs ++ (match opener.repair with | some r => [r] | none => []),
      opener.endPos⟩ 1
    if ad.2 ≠ 0 then (none, ad.1.pos)
    else
      (some { blocks := path.blocks ++ [.objectCandidate (jsTrim ad.1.raw)]
              score := ad.1.score
              repairs := ad.1.repairs
              position := ad.1.pos }, ad.1.pos)

/-- Skip WHITESPACE-typed candidates only (inside `looksLikeYAMLContinuation`). -/
def wsTokSkip (input : List Char) : Nat → Nat → Nat
  | 0, pos => pos
  | f + 1, pos =>
    match (nextTokenCandidates input pos).head? with
    | some c => if c.type = .WHITESPACE then wsTokSkip input f c.endPos else pos
    | none => pos

/-- `looksLikeYAMLContinuation()` (position restored; pure here). -/
def looksLikeYAMLContinuation (input : List Char) (pos : Nat) : Bool :=
  match (nextTokenCandidates input pos).head? with
  | none => false
  | some current =>
    if current.type = .DASH || current.type = .BARE_WORD || current.type = .STRING ||
        current.type = .NUMBER || current.type = .BOOLEAN || current.type = .NULL ||
        current.type = .COLON || current.type = .WHITESPACE || current.type = .NEWLINE ||
        current.type = .BRACE_OPEN then
      if current.type = .NEWLINE then
        let p1 := wsTokSkip input (input.length + 1) current.endPos
        match (nextTokenCandidates input p1).head? with
        | some nc => nc.type = .DASH || looksLikeYAMLKey input p1
        | none => false
      else true
    else false

/-- Token loop of `tryParseYAMLObject`. -/
def yamlSegLoop (input : List Char) : Nat → SegAcc → SegAcc
  | 0, a => a
  | f + 1, a =>
    if isEOF input a.pos then a
    else if ¬ looksLikeYAMLContinuation input a.pos then a
    else
      match consumeBest input a.pos with
      | some t => yamlSegLoop input f (segPush a t)
      | none => a

/-- `tryParseYAMLObject` (adds the YAML mode penalty of 5). -/
def tryParseYAMLObject (input : List Char) (f : Nat) (path : ParsePath) :
    Option ParsePath × Nat :=
  if ¬ looksLikeYAMLKey input path.position then (none, path.position)
  else
    let a := yamlSegLoop input f ⟨[], path.score + 5, path.repairs ++ ["YAML mode"],
      path.position⟩
    if (jsTrim a.raw).length = 0 then (none, a.pos)
    else
      (some { blocks := path.blocks ++ [.objectCandidate (jsTrim a.raw)]
              score := a.score
              repairs := a.repairs
              position := a.pos }, a.pos)

/-- `tryParseObjectBlock`: run the four attempts from the same checkpoint and
keep the lowest-scoring success (JS stable sort: first minimum).  The second
component is the tokenizer position left by the last attempt, which the
`parseDocument` loop condition reads. -/
def tryParseObjectBlock (input : List Char) (f : Nat) (path : ParsePath) :
    Option ParsePath × Nat :=
  let r1 := tryParseFencedJSON input f path
  let r2 := tryParseFencedYAML input f path
  let r3 := tryParseJSONObject input f path
  let r4 := tryParseYAMLObject input f path
  let results := [r1.1, r2.1, r3.1, r4.1].filterMap id
  let best : Option ParsePath :=
    match results with
    | [] => none
    | p :: ps => some (ps.foldl (fun acc q => if q.score < acc.score then q else acc) p)
  (best, r4.2)

/-- `parseDocument` state: the current path plus the tokenizer position (the
loop condition reads the tokenizer, which the attempts may leave behind the
path's own position). -/
structure DocState where
  path : ParsePath
  tokPos : Nat
deriving Repr

/-- Inner fuel for the segmenter's scanning loops. -/
def segFuel (input : List Char) : Nat := input.length + 2

/-- One iteration of the `parseDocument` while loop. -/
def docStep (input : List Char) (f : Nat) (s : DocState) : DocState :=
  let ores := tryParseObjectBlock input f s.path
  match ores.1 with
  | some p => { path := p, tokPos := ores.2 }
  | none =>
    let tres := parseTextBlock input f s.path
    match tres.1 with
    | some p => { path := p, tokPos := tres.2 }
    | none =>
      { path := { s.path with position := tres.2 + 1 }, tokPos := tres.2 + 1 }

/-- The `parseDocument` while loop. -/
def docLoop (input : List Char) : Nat → DocState → DocState
  | 0, s => s
  | f + 1, s =>
    if isEOF input s.tokPos then s
    else docLoop input f (docStep input (segFuel input) s)

/-- `SoftParser.parse()` / `segment()` (segmenter.ts). -/
def segment (input : List Char) : List SegmentedBlock :=
  (docLoop input (2 * input.length + 4) ⟨⟨[], 0, [], 0⟩, 0⟩).path.blocks

/-! ### Pipeline driver (preprocessor.ts, parser.ts, index.ts) -/

/-- `preprocess`: newline normalization (CRLF then lone CR to LF). -/
def preprocess : List Char → List Char
  | [] => []
  | '\r' :: '\n' :: r => '\n' :: preprocess r
  | '\r' :: r => '\n' :: preprocess r
  | c :: r => c :: preprocess r

/-- Final output unit (`types.ts`, `RawBlock`). -/
inductive RawBlock where
  | text (text : List Char)
  | object (object : JVal) (raw : List Char) (repairedText : List Char)
      (warnings : List String) (repairs : List String) (score : Score)
      (winningMode : RepairMode)

/-- `parseRaw`: preprocess, segment, repair each candidate; candidates whose
repair fails are dropped. -/
def parseRaw (input : List Char) : List RawBlock :=
  (segment (preprocess input)).filterMap fun b =>
    match b with
    | .text t => some (.text t)
    | .objectCandidate raw =>
      let r := repairObjectCandidate raw
      match r.success, r.object with
      | true, some o =>
        some (.object o raw (r.repairedText.getD []) r.warnings r.repairs r.score r.mode)
      | _, _ => none

def isObjectBlock : RawBlock → Bool
  | .object .. => true
  | .text _ => false

def objectOf : RawBlock → Option JVal
  | .object o .. => some o
  | .text _ => none

/-- `parseJson`: `none` for zero objects, the single object, or the ordered
array of all objects. -/
def parseJson (input : List Char) : Option JVal :=
  let objectBlocks := (parseRaw input).filter isObjectBlock
  if objectBlocks.length = 0 then none
  else if objectBlocks.length = 1 then objectBlocks.head?.bind objectOf
  else some (.arr (objectBlocks.filterMap objectOf))

/-! ### Spec-side notions used by the claims -/

/-- The JSON reconstruction completes and its output text decodes. -/
def jsonPathDecodes (raw : List Char) : Bool :=
  let jr := reconstructJSON raw
  jr.success && (jr.json.bind strictParse).isSome

/-- The YAML reconstruction completes and its output text decodes. -/
def yamlPathDecodes (raw : List Char) : Bool :=
  let yr := reconstructYAML raw
  yr.success && (yr.json.bind strictParse).isSome

/-- A decoded result binds the key `k` (to anything). -/
def objHasKey (k : List Char) : Option JVal → Bool
  | some (.obj fields) => (jsGet k fields).isSome
  | _ => false

/-- What the lexer's double-quote scan actually decodes: each backslash is
dropped and the character after it is kept literally (so `\\` and `\"` decode
to `\` and `"`, but `\n`, `\t`, `\r` decode to the letters `n`, `t`, `r`). -/
def specUnescape : List Char → List Char
  | [] => []
  | ['\\'] => ['\\']
  | '\\' :: c :: r => c :: specUnescape r
  | c :: r => c :: specUnescape r

/-- A double-quoted string body with no unescaped quote and no dangling
backslash. -/
def dqBodyOk : List Char → Bool
  | [] => true
  | ['\\'] => false
  | '\\' :: _ :: r => dqBodyOk r
  | c :: r => decide (c ≠ '"') && dqBodyOk r

/-- Iterated `consumeBest` from a position (each step moves to the best
candidate's end). -/
def iterConsume (input : List Char) : Nat → Nat → Nat
  | 0, pos => pos
  | f + 1, pos => if isEOF input pos then pos else iterConsume input f (afterBest input pos)

/-! ### Staged evaluations of the concrete claim inputs

Each heavyweight pipeline run is pinned to its literal result once (by `rfl`),
so later proofs only rewrite with these equations. -/

/-- The C1 input: syntactically valid JSON with an exponent-notation number. -/
def c1input : List Char := cs "\x7b\"a\":1e5\x7d"

theorem c1_reconRaw :
    reconRaw c1input =
      (some (cs "\x7b\"a\": 1,\"e5\": null\x7d"),
       ⟨9, ["added missing comma", "quoted bare key", "added missing colon and null value"], 6⟩) :=
  rfl

theorem c1_strict_out :
    strictParse (cs "\x7b\"a\": 1,\"e5\": null\x7d") =
      some (.obj [(cs "a", .num ⟨false, 1, 0⟩), (cs "e5", .null)]) := rfl

theorem c1_reconstructJSON :
    reconstructJSON c1input =
      ⟨true, some (cs "\x7b\"a\": 1,\"e5\": null\x7d"),
       ["added missing comma", "quoted bare key", "added missing colon and null value"],
       [], .fin 6⟩ := by
  rw [reconstructJSON, c1_reconRaw]; rfl

/-- The C7 input: the spec's exact "btw I love YAML" span. -/
def c7input : List Char := cs "\x7b name: Keith\n btw I love YAML\n role: CTO \x7d"

theorem c7_reconRaw :
    reconRaw c7input =
      (some (cs "\x7b\"name\": \"Keith\n btw I love YAML\n role\",,\"CTO\": null\x7d"),
       ⟨43, ["quoted bare key", "quoted bare value", "added missing comma",
             "added missing comma", "quoted bare key", "added missing colon and null value"],
        11⟩) := rfl

theorem c7_strict_out :
    strictParse (cs "\x7b\"name\": \"Keith\n btw I love YAML\n role\",,\"CTO\": null\x7d") =
      none := rfl

theorem c7_reconstructJSON :
    reconstructJSON c7input =
      ⟨false, none,
       ["quoted bare key", "quoted bare value", "added missing comma",
        "added missing comma", "quoted bare key", "added missing colon and null value"],
       ["Invalid JSON"], .inf⟩ := by
  rw [reconstructJSON, c7_reconRaw]; rfl

theorem c7_yamlLoop :
    yamlDocLoop c7input (2 * c7input.length + 8) ⟨0, [], 5, none, false, []⟩ =
      ⟨43, ["converted YAML key-value", "converted YAML key-value"], 7, none, false,
       [(cs "name", .str (cs "Keith")), (cs "role", .str (cs "CTO"))]⟩ := rfl

theorem c7_stringify :
    stringifyTop (.obj [(cs "name", .str (cs "Keith")), (cs "role", .str (cs "CTO"))]) =
      cs "\x7b\n  \"name\": \"Keith\",\n  \"role\": \"CTO\"\n\x7d" := rfl

theorem c7_strict_yaml :
    strictParse (cs "\x7b\n  \"name\": \"Keith\",\n  \"role\": \"CTO\"\n\x7d") =
      some (.obj [(cs "name", .str (cs "Keith")), (cs "role", .str (cs "CTO"))]) := rfl

theorem c7_reconstructYAML :
    reconstructYAML c7input =
      ⟨true, some (cs "\x7b\n  \"name\": \"Keith\",\n  \"role\": \"CTO\"\n\x7d"),
       ["converted YAML key-value", "converted YAML key-value"], [], .fin 7⟩ := by
  rw [reconstructYAML, c7_yamlLoop]; rfl

theorem c7_repair :
    repairObjectCandidate c7input =
      ⟨true, some (.obj [(cs "name", .str (cs "Keith")), (cs "role", .str (cs "CTO"))]),
       some (cs "\x7b\n  \"name\": \"Keith\",\n  \"role\": \"CTO\"\n\x7d"), [],
       ["converted YAML key-value", "converted YAML key-value"], .fin 7, .yamlIsh⟩ := by
  rw [repairObjectCandidate, c7_reconstructJSON, c7_reconstructYAML]; rfl

/-- The C8 input: the spec's ragged-indentation YAML list span. -/
def c8input : List Char := cs "items:\n - one\n  - two\n    - three"

theorem c8_reconRaw : reconRaw c8input = (none, ⟨0, [], 0⟩) := rfl

theorem c8_reconstructJSON :
    reconstructJSON c8input =
      ⟨false, none, [], ["Failed to reconstruct as JSON"], .inf⟩ := by
  rw [reconstructJSON, c8_reconRaw]

theorem c8_yamlLoop :
    yamlDocLoop c8input (2 * c8input.length + 8) ⟨0, [], 5, none, false, []⟩ =
      ⟨33, ["converted YAML key-value", "added list item", "added list item", "added list item"],
       9, some (cs "items"), true,
       [(cs "items", .arr [.str (cs "one"), .str (cs "two"), .str (cs "three")])]⟩ := rfl

theorem c8_stringify :
    stringifyTop (.obj [(cs "items", .arr [.str (cs "one"), .str (cs "two"), .str (cs "three")])]) =
      cs "\x7b\n  \"items\": [\n    \"one\",\n    \"two\",\n    \"three\"\n  ]\n\x7d" := rfl

theorem c8_strict_yaml :
    strictParse (cs "\x7b\n  \"items\": [\n    \"one\",\n    \"two\",\n    \"three\"\n  ]\n\x7d") =
      some (.obj [(cs "items", .arr [.str (cs "one"), .str (cs "two"), .str (cs "three")])]) := rfl

theorem c8_reconstructYAML :
    reconstructYAML c8input =
      ⟨true, some (cs "\x7b\n  \"items\": [\n    \"one\",\n    \"two\",\n    \"three\"\n  ]\n\x7d"),
       ["converted YAML key-value", "added list item", "added list item", "added list item"],
       [], .fin 9⟩ := by
  rw [reconstructYAML, c8_yamlLoop]; rfl

theorem c8_repair :
    repairObjectCandidate c8input =
      ⟨true, some (.obj [(cs "items", .arr [.str (cs "one"), .str (cs "two"), .str (cs "three")])]),
       some (cs "\x7b\n  \"items\": [\n    \"one\",\n    \"two\",\n    \"three\"\n  ]\n\x7d"), [],
       ["converted YAML key-value", "added list item", "added list item", "added list item"],
       .fin 9, .yamlIsh⟩ := by
  rw [repairObjectCandidate, c8_reconstructJSON, c8_reconstructYAML]; rfl

/-- The C10 concrete span: a dash item before any key line. -/
def c10input : List Char := cs "- one\nname: Keith"

theorem c10_yamlLoop :
    yamlDocLoop c10input (2 * c10input.length + 8) ⟨0, [], 5, none, false, []⟩ =
      ⟨17, ["converted YAML key-value"], 6, none, false, [(cs "name", .str (cs "Keith"))]⟩ := rfl

theorem c10_stringify :
    stringifyTop (.obj [(cs "name", .str (cs "Keith"))]) =
      cs "\x7b\n  \"name\": \"Keith\"\n\x7d" := rfl

theorem c10_strict_yaml :
    strictParse (cs "\x7b\n  \"name\": \"Keith\"\n\x7d") =
      some (.obj [(cs "name", .str (cs "Keith"))]) := rfl

theorem c10_reconstructYAML :
    reconstructYAML c10input =
      ⟨true, some (cs "\x7b\n  \"name\": \"Keith\"\n\x7d"),
       ["converted YAML key-value"], [], .fin 6⟩ := by
  rw [reconstructYAML, c10_yamlLoop]; rfl

/-- The C10 counterexample span: a discarded dash item that still logs a repair. -/
def c10binput : List Char := cs "- \x7ba: 1\x7d"

theorem c10b_capture :
    inlineCapture c10binput (c10binput.length + 1) 2 0 [] = (cs "\x7ba: 1\x7d", 8) := rfl

theorem c10b_innerRaw :
    reconRaw (cs "\x7ba: 1\x7d") =
      (some (cs "\x7b\"a\": 1\x7d"), ⟨6, ["quoted bare key"], 2⟩) := rfl

theorem c10b_innerJSON :
    reconstructJSON (cs "\x7ba: 1\x7d") =
      ⟨true, some (cs "\x7b\"a\": 1\x7d"), ["quoted bare key"], [], .fin 2⟩ := by
  rw [reconstructJSON, c10b_innerRaw]; rfl

theorem c10b_inline :
    parseInlineJSON c10binput ⟨2, [], 5, none, false, []⟩ =
      (.obj [(cs "a", .num ⟨false, 1, 0⟩)],
       ⟨8, ["parsed inline JSON in YAML"], 7, none, false, []⟩) := by
  rw [parseInlineJSON, c10b_capture, c10b_innerJSON]; rfl

theorem c10b_listItem :
    yamlParseListItem c10binput ⟨0, [], 5, none, false, []⟩ =
      (some (.obj [(cs "a", .num ⟨false, 1, 0⟩)]),
       ⟨8, ["parsed inline JSON in YAML"], 7, none, false, []⟩) := by
  have h1 : consumeType c10binput 0 .DASH = some 1 := rfl
  have h2 : skipWsTok c10binput (c10binput.length + 1) 1 = 2 := rfl
  have h3 : consumeBest c10binput 2 = some ⟨.BRACE_OPEN, ['\x7b'], 3, 0, none⟩ := rfl
  simp only [yamlParseListItem, yamlParseValue, h1, h2, h3, c10b_inline]
  rfl

theorem c10b_body :
    yamlDocBody c10binput ⟨0, [], 5, none, false, []⟩ =
      ⟨8, ["parsed inline JSON in YAML"], 7, none, false, []⟩ := by
  have h1 : peekDash c10binput 0 = true := rfl
  simp only [yamlDocBody, h1, c10b_listItem, if_true]

theorem yamlDocLoop_step (input : List Char) (f : Nat) (s s1 : YState)
    (h1 : isEOF input s.pos = false)
    (h2 : ({ s with pos := skipWsTok input (input.length + 1) s.pos } : YState) = s1)
    (h3 : isEOF input s1.pos = false) :
    yamlDocLoop input (f + 1) s = yamlDocLoop input f (yamlDocBody input s1) := by
  have e : yamlDocLoop input (f + 1) s =
      (if isEOF input s.pos then s
       else
         (fun s2 => if isEOF input s2.pos then s2
                    else yamlDocLoop input f (yamlDocBody input s2))
           { s with pos := skipWsTok input (input.length + 1) s.pos }) := rfl
  rw [e, h1, h2]
  simp only [Bool.false_eq_true, if_false, h3]

theorem yamlDocLoop_stop (input : List Char) (f : Nat) (s : YState)
    (h1 : isEOF input s.pos = true) :
    yamlDocLoop input (f + 1) s = s := by
  have e : yamlDocLoop input (f + 1) s =
      (if isEOF input s.pos then s
       else
         (fun s2 => if isEOF input s2.pos then s2
                    else yamlDocLoop input f (yamlDocBody input s2))
           { s with pos := skipWsTok input (input.length + 1) s.pos }) := rfl
  rw [e, h1]
  simp only [if_true]

theorem c10b_yamlLoop :
    yamlDocLoop c10binput (2 * c10binput.length + 8) ⟨0, [], 5, none, false, []⟩ =
      ⟨8, ["parsed inline JSON in YAML"], 7, none, false, []⟩ := by
  rw [show 2 * c10binput.length + 8 = 23 + 1 from rfl]
  rw [yamlDocLoop_step c10binput 23 ⟨0, [], 5, none, false, []⟩ ⟨0, [], 5, none, false, []⟩
    rfl rfl rfl]
  rw [c10b_body]
  rw [show (23 : Nat) = 22 + 1 from rfl]
  exact yamlDocLoop_stop c10binput 22 _ rfl

theorem c10b_reconstructYAML :
    reconstructYAML c10binput =
      ⟨true, some (cs "\x7b\x7d"), ["parsed inline JSON in YAML"], [], .fin 7⟩ := by
  rw [reconstructYAML, c10b_yamlLoop]; rfl

/-! ### Claim theorems -/

/-- **C1** (code bug).  The claimed idempotence on well-formed input fails:
for the syntactically valid JSON object text `{"a":1e5}`,
`repairObjectCandidate` returns success with score 6 (not 0) and the object
`{"a":1,"e5":null}`, while a strict JSON decode of the same text gives
`{"a":100000}` — the lexer has no exponent support, so `e5` is re-parsed as a
separate bare key with a synthesized null value. -/
theorem C1_repair_mangles_exponent_number :
    repairObjectCandidate c1input =
      ⟨true, some (.obj [(cs "a", .num ⟨false, 1, 0⟩), (cs "e5", .null)]),
       some (cs "\x7b\"a\": 1,\"e5\": null\x7d"), [],
       ["added missing comma", "quoted bare key", "added missing colon and null value"],
       .fin 6, .jsonIsh⟩ ∧
    strictParse c1input = some (.obj [(cs "a", .num ⟨false, 1, 5⟩)]) := by
  constructor
  · rw [repairObjectCandidate, c1_reconstructJSON]; rfl
  · rfl

/-- **C7** (counterexample).  On the spec's exact span
`"{ name: Keith\n btw I love YAML\n role: CTO }"` the repair result does NOT
contain the key `"btw I love YAML"` at all (the claim says it is bound to
`null`). -/
theorem C7_btw_key_absent :
    objHasKey (cs "btw I love YAML") (repairObjectCandidate c7input).object = false := by
  rw [c7_repair]; rfl

/-- **C7** (amended).  Repair of the exact span succeeds, but via the YAML
reconstructor: it decodes to `{"name":"Keith","role":"CTO"}` — the bare line
`btw I love YAML` is silently dropped, not emitted as a null-valued key (the
JSON reconstructor swallows the line into a multiline bare value, producing
undecodable output, and the YAML fallback skips words with no colon). -/
theorem C7_repair_drops_bare_line :
    (repairObjectCandidate c7input).success = true ∧
    (repairObjectCandidate c7input).object =
      some (.obj [(cs "name", .str (cs "Keith")), (cs "role", .str (cs "CTO"))]) ∧
    (repairObjectCandidate c7input).mode = .yamlIsh := by
  rw [c7_repair]; exact ⟨rfl, rfl, rfl⟩

/-- **C8** (confirmed).  Repair of the exact span
`"items:\n - one\n  - two\n    - three"` succeeds and decodes to
`{"items":["one","two","three"]}`: the list items at varying indent levels are
attached to the same current key as one flat three-element array. -/
theorem C8_ragged_list_flat :
    (repairObjectCandidate c8input).success = true ∧
    (repairObjectCandidate c8input).object =
      some (.obj [(cs "items", .arr [.str (cs "one"), .str (cs "two"), .str (cs "three")])]) := by
  rw [c8_repair]; exact ⟨rfl, rfl⟩

/-- **C4** (counterexample).  At position 0 of the input `"a\nb"` (a
double-quoted string whose body is `a`, backslash, `n`, `b`) the lexer's only
candidate decodes to `anb` — the `\n` escape is NOT translated to a newline
(the backslash is dropped and the `n` kept literally). -/
theorem C4_escape_n_not_translated :
    (nextTokenCandidates (cs "\"a\\nb\"") 0).map (fun c => c.value) = [cs "anb"] := rfl

/-- **C5** (counterexample).  `parseRaw "ab {x"` yields two consecutive
TextBlocks (`"ab"` and `"x"`): when the unbalanced `{` candidate fails, the
opener is skipped and the surrounding text is emitted as two separate blocks,
so adjacent TextBlocks do occur. -/
theorem C5_adjacent_text_blocks :
    parseRaw (cs "ab \x7bx") = [.text (cs "ab"), .text (cs "x")] := rfl

/-- **C6** (counterexample).  `segment "{x"` yields only the TextBlock `"x"`:
the unbalanced opener `{` is dropped from the output entirely, not emitted as
part of a TextBlock. -/
theorem C6_unbalanced_opener_dropped :
    segment (cs "\x7bx") = [.text (cs "x")] := rfl

/-- **C10** (counterexample).  A list-item line encountered with no current
key is not always silently discarded: for the span `"- {a: 1}"` the item is
dropped from the object, but the repairs log still records
`"parsed inline JSON in YAML"` for it. -/
theorem C10_discarded_item_logs_repair :
    (reconstructYAML c10binput).repairs = ["parsed inline JSON in YAML"] ∧
    (reconstructYAML c10binput).success = true ∧
    (reconstructYAML c10binput).json = some (cs "\x7b\x7d") := by
  rw [c10b_reconstructYAML]; exact ⟨rfl, rfl, rfl⟩

/-- `tryParseObjectBlock` keeps the best success: it is one of the four
attempts' results. -/
theorem foldl_pick_mem (ps : List ParsePath) (p : ParsePath) :
    ps.foldl (fun acc q => if q.score < acc.score then q else acc) p ∈ p :: ps := by
  induction ps generalizing p with
  | nil => simp
  | cons q ps ih =>
    simp only [List.foldl_cons]
    by_cases hq : q.score < p.score
    · simp only [if_pos hq]
      rcases List.mem_cons.mp (ih q) with h | h
      · simp [h]
      · simp [h]
    · simp only [if_neg hq]
      rcases List.mem_cons.mp (ih p) with h | h
      · simp [h]
      · simp [h]

theorem filterMap_objectOf_filter (l : List RawBlock) :
    (l.filter isObjectBlock).filterMap objectOf = l.filterMap objectOf := by
  induction l with
  | nil => rfl
  | cons b l ih =>
    cases b <;>
      simp [isObjectBlock, objectOf, List.filter_cons, List.filterMap_cons, ih]

/-- **C2** (confirmed).  The orchestrator's fallback order: if the JSON
reconstruction decodes it wins with mode json-ish; else if the YAML
reconstruction decodes it wins with mode yaml-ish; else a failed result with
score infinity and the diagnostic warning. -/
theorem C2_orchestrator_fallback (raw : List Char) :
    repairObjectCandidate raw =
      if jsonPathDecodes raw then
        ⟨true, (reconstructJSON raw).json.bind strictParse, (reconstructJSON raw).json,
         [], (reconstructJSON raw).repairs, (reconstructJSON raw).score, .jsonIsh⟩
      else if yamlPathDecodes raw then
        ⟨true, (reconstructYAML raw).json.bind strictParse, (reconstructYAML raw).json,
         [], (reconstructYAML raw).repairs, (reconstructYAML raw).score, .yamlIsh⟩
      else ⟨false, none, none, ["All reconstruction attempts failed"], [], .inf, .jsonIsh⟩ := by
  unfold repairObjectCandidate jsonPathDecodes yamlPathDecodes
  rcases hj : reconstructJSON raw with ⟨js, jj, jrep, jw, jsc⟩
  rcases hy : reconstructYAML raw with ⟨ys, yj, yrep, yw, ysc⟩
  cases js <;> rcases jj with _ | ⟨j⟩ <;>
    simp only [Option.none_bind, Option.some_bind, Option.isSome_none, Option.isSome_some,
      Bool.false_and, Bool.true_and, Bool.and_false, Bool.and_true,
      Bool.false_eq_true, if_false, if_true] <;>
    (try (cases hs : strictParse j <;>
      simp only [hs, Option.isSome_none, Option.isSome_some,
        Bool.false_and, Bool.true_and, Bool.and_false, Bool.and_true,
        Bool.false_eq_true, if_false, if_true])) <;>
    (try rfl)
  all_goals (
    cases ys <;> rcases yj with _ | ⟨k⟩ <;>
      simp only [Option.none_bind, Option.some_bind, Option.isSome_none, Option.isSome_some,
        Bool.false_and, Bool.true_and, Bool.and_false, Bool.and_true,
        Bool.false_eq_true, if_false, if_true] <;>
      (try (cases hk : strictParse k <;>
        simp only [hk, Option.isSome_none, Option.isSome_some,
          Bool.false_and, Bool.true_and, Bool.and_false, Bool.and_true,
          Bool.false_eq_true, if_false, if_true])) <;>
      (try rfl))

/-- **C3** (confirmed).  The projection law of `parseJson`: `none` for zero
ObjectBlocks in the `parseRaw` sequence, the single block's object for one,
and the ordered array of all the ObjectBlocks' objects for more than one. -/
theorem C3_projection_law (input : List Char) :
    (((parseRaw input).filter isObjectBlock).length = 0 → parseJson input = none) ∧
    (∀ b : RawBlock, (parseRaw input).filter isObjectBlock = [b] →
        parseJson input = objectOf b) ∧
    (1 < ((parseRaw input).filter isObjectBlock).length →
        parseJson input = some (.arr ((parseRaw input).filterMap objectOf))) := by
  refine ⟨fun h => ?_, fun b h => ?_, fun h => ?_⟩
  · unfold parseJson; simp [h]
  · unfold parseJson; simp [h]
  · unfold parseJson
    rw [← filterMap_objectOf_filter]
    have h0 : ((parseRaw input).filter isObjectBlock).length ≠ 0 := by omega
    have h1 : ((parseRaw input).filter isObjectBlock).length ≠ 1 := by omega
    simp [h0, h1]

theorem C3_projection_law_witness :
    ((parseRaw (cs "hi")).filter isObjectBlock).length = 0 ∧ parseJson (cs "hi") = none :=
  ⟨rfl, (C3_projection_law (cs "hi")).1 rfl⟩

theorem textScan_at_objectStart (input : List Char) (f : Nat) (pos : Nat)
    (h : looksLikeObjectStart input pos = true) :
    textScan input f pos = ([], pos) := by
  cases f with
  | zero => rfl
  | succ f =>
    unfold textScan
    by_cases he : isEOF input pos <;> simp [he, h]

/-- **C6** (amended).  When an object-start attempt fails (e.g. a `{` or `[`
opener never balanced), the document step emits NO block at all: the path's
blocks are unchanged and the cursor merely skips one character past the
opener, so the opener is dropped from the output rather than kept as text. -/
theorem C6_failed_object_start_skipped (input : List Char) (f : Nat)
    (path : ParsePath) (tp : Nat)
    (hstart : looksLikeObjectStart input path.position = true)
    (hfail : (tryParseObjectBlock input f path).1 = none) :
    docStep input f ⟨path, tp⟩ =
      ⟨{ path with position := path.position + 1 }, path.position + 1⟩ := by
  unfold docStep
  dsimp only
  rw [hfail]
  unfold parseTextBlock
  rw [textScan_at_objectStart input f path.position hstart]
  simp [jsTrim]

theorem C6_failed_object_start_skipped_witness :
    looksLikeObjectStart (cs "\x7bx") 0 = true ∧
    (tryParseObjectBlock (cs "\x7bx") (segFuel (cs "\x7bx")) ⟨[], 0, [], 0⟩).1 = none ∧
    docStep (cs "\x7bx") (segFuel (cs "\x7bx")) ⟨⟨[], 0, [], 0⟩, 0⟩ = ⟨⟨[], 0, [], 1⟩, 1⟩ :=
  ⟨rfl, rfl,
    C6_failed_object_start_skipped (cs "\x7bx") (segFuel (cs "\x7bx")) ⟨[], 0, [], 0⟩ 0 rfl rfl⟩

/-- `parseInlineJSON` never touches the object being built or the current
key, and appends at most the inline-JSON repair note. -/
theorem parseInlineJSON_frame (input : List Char) (s : YState) :
    (parseInlineJSON input s).2.obj = s.obj ∧
    (parseInlineJSON input s).2.currentKey = s.currentKey ∧
    ((parseInlineJSON input s).2.repairs = s.repairs ∨
      (parseInlineJSON input s).2.repairs = s.repairs ++ ["parsed inline JSON in YAML"]) := by
  unfold parseInlineJSON
  dsimp only
  (repeat' split) <;> simp

/-- `parseValue` of the YAML reconstructor never touches the object being
built or the current key, and appends at most the inline-JSON repair note. -/
theorem yamlParseValue_frame (input : List Char) (s : YState) :
    (yamlParseValue input s).2.obj = s.obj ∧
    (yamlParseValue input s).2.currentKey = s.currentKey ∧
    ((yamlParseValue input s).2.repairs = s.repairs ∨
      (yamlParseValue input s).2.repairs = s.repairs ++ ["parsed inline JSON in YAML"]) := by
  unfold yamlParseValue
  (repeat' split) <;> simp [parseInlineJSON_frame]

theorem yamlParseListItem_frame (input : List Char) (s : YState) :
    (yamlParseListItem input s).2.obj = s.obj ∧
    (yamlParseListItem input s).2.currentKey = s.currentKey ∧
    ((yamlParseListItem input s).2.repairs = s.repairs ∨
      (yamlParseListItem input s).2.repairs = s.repairs ++ ["parsed inline JSON in YAML"]) := by
  unfold yamlParseListItem
  (repeat' split) <;> simp [yamlParseValue_frame]

/-- **C10** (amended).  A list item met while no current key is set is indeed
discarded from the object under construction (and the current key stays
unset), but it is NOT always absent from the repairs log: parsing the item's
value may append `"parsed inline JSON in YAML"`. -/
theorem C10_no_key_item_discarded (input : List Char) (s : YState)
    (hk : s.currentKey = none) (hd : peekDash input s.pos = true) :
    (yamlDocBody input s).obj = s.obj ∧
    (yamlDocBody input s).currentKey = none ∧
    ((yamlDocBody input s).repairs = s.repairs ∨
      (yamlDocBody input s).repairs = s.repairs ++ ["parsed inline JSON in YAML"]) := by
  unfold yamlDocBody
  rw [hd, if_pos rfl]
  have hf := yamlParseListItem_frame input s
  rcases hps : yamlParseListItem input s with ⟨ov, s2⟩
  rw [hps] at hf
  rw [hk]
  dsimp only at hf ⊢
  cases ov <;> simp_all

theorem C10_no_key_item_discarded_witness :
    peekDash c10binput 0 = true ∧
    ((yamlDocBody c10binput ⟨0, [], 5, none, false, []⟩).obj = [] ∧
     (yamlDocBody c10binput ⟨0, [], 5, none, false, []⟩).currentKey = none ∧
     ((yamlDocBody c10binput ⟨0, [], 5, none, false, []⟩).repairs = [] ∨
      (yamlDocBody c10binput ⟨0, [], 5, none, false, []⟩).repairs =
        [] ++ ["parsed inline JSON in YAML"])) :=
  ⟨rfl, C10_no_key_item_discarded c10binput ⟨0, [], 5, none, false, []⟩ rfl rfl⟩

theorem dqBodyOk_cons (c : Char) (r : List Char) (hc : c ≠ '\\') :
    dqBodyOk (c :: r) = (decide (c ≠ '"') && dqBodyOk r) := by
  rw [dqBodyOk.eq_def]
  split <;> simp_all

theorem specUnescape_cons (c : Char) (r : List Char) (hc : c ≠ '\\') :
    specUnescape (c :: r) = c :: specUnescape r := by
  rw [specUnescape.eq_def]
  split <;> simp_all

theorem quoteScan_cons_ne (q c : Char) (r : List Char) (hb : c ≠ '\\') (hq : c ≠ q) :
    quoteScan q (c :: r) =
      match quoteScan q r with
      | some (v, n) => some (c :: v, n + 1)
      | none => none := by
  rw [quoteScan.eq_def]
  simp [hb, hq]

/-- On a well-formed double-quoted body, the lexer's quote scan drops each
backslash and keeps the following character literally. -/
theorem quoteScan_append (body : List Char) : ∀ (suffix : List Char), dqBodyOk body = true →
    quoteScan '"' (body ++ '"' :: suffix) = some (specUnescape body, body.length + 1) := by
  induction body using dqBodyOk.induct with
  | case1 =>
    intro suffix h
    rw [List.nil_append, quoteScan.eq_def]
    simp [specUnescape]
  | case2 =>
    intro suffix h
    have he : dqBodyOk ['\\'] = false := rfl
    rw [he] at h
    simp at h
  | case3 d r ih =>
    intro suffix h
    have hr : dqBodyOk r = true := by
      have he : dqBodyOk ('\\' :: d :: r) = dqBodyOk r := rfl
      rwa [he] at h
    have ihh := ih suffix hr
    simp only [List.cons_append, quoteScan, List.append_eq, if_true]
    rw [ihh]
    simp only [specUnescape, List.length_cons, Option.some.injEq, Prod.mk.injEq]
    try first
    | omega
    | exact ⟨rfl, by omega⟩
    | rfl
  | case4 c r hx1 hx2 ih =>
    intro suffix h
    have hcb : c ≠ '\\' := by
      intro hceq
      rcases r with _ | ⟨a, b⟩
      · exact hx1 hceq rfl
      · exact hx2 a b hceq rfl
    rw [dqBodyOk_cons c r hcb] at h
    simp only [Bool.and_eq_true] at h
    have hcq : c ≠ '"' := of_decide_eq_true h.1
    have hr : dqBodyOk r = true := h.2
    have ihh := ih suffix hr
    rw [List.cons_append, quoteScan_cons_ne '"' c (r ++ '"' :: suffix) hcb hcq, ihh,
      specUnescape_cons c r hcb]
    simp

/-- **C4** (amended).  At a double quote opening a well-formed quoted string,
the lexer yields exactly one candidate: a STRING of cost 0 whose decoded value
drops each backslash and keeps the character after it literally (so `\\` and
`\"` decode to `\` and `"`, but `\n`, `\t`, `\r` decode to the letters `n`,
`t`, `r` — no control-character translation). -/
theorem C4_string_backslash_dropped (input : List Char) (pos : Nat) (body suffix : List Char)
    (hsplit : input.drop pos = '"' :: (body ++ '"' :: suffix))
    (hok : dqBodyOk body = true) :
    nextTokenCandidates input pos =
      [⟨.STRING, specUnescape body, pos + 1 + (body.length + 1), 0, none⟩] := by
  have hne : input.drop pos ≠ [] := by rw [hsplit]; simp
  have hlt : pos < input.length := by
    by_contra hge
    exact hne (List.drop_eq_nil_of_le (by omega))
  have heof : isEOF input pos = false := by
    simp only [isEOF, decide_eq_false_iff_not]
    omega
  have hF : tryFence input pos = [] := by
    unfold tryFence
    rw [hsplit]
    rfl
  have hS : tryString input pos =
      [⟨.STRING, specUnescape body, pos + 1 + (body.length + 1), 0, none⟩] := by
    unfold tryString
    rw [hsplit]
    show (match quoteScan '"' (body ++ '"' :: suffix) with
          | some (v, n) => [(⟨.STRING, v, pos + 1 + n, 0, none⟩ : TokenCandidate)]
          | none => ([] : List TokenCandidate)) ++ [] ++ [] = _
    rw [quoteScan_append body suffix hok]
    rfl
  have hN : tryNumber input pos = [] := by
    unfold tryNumber
    rw [hsplit]
    rfl
  have hK : tryKeyword input pos = [] := by
    unfold tryKeyword
    rw [hsplit]
    rfl
  have hB : tryBareWord input pos = [] := by
    unfold tryBareWord
    rw [hsplit]
    rfl
  have hP : tryPunctuation input pos = [] := by
    unfold tryPunctuation
    rw [hsplit]
    rfl
  have hW : tryWhitespace input pos = [] := by
    unfold tryWhitespace
    rw [hsplit]
    rfl
  unfold nextTokenCandidates
  rw [heof]
  simp only [Bool.false_eq_true, if_false, hF, hS, hN, hK, hB, hP, hW]
  rfl

theorem C4_string_backslash_dropped_witness :
    (cs "\"a\\nb\"").drop 0 = '"' :: (cs "a\\nb" ++ '"' :: []) ∧
    dqBodyOk (cs "a\\nb") = true ∧
    nextTokenCandidates (cs "\"a\\nb\"") 0 =
      [⟨.STRING, specUnescape (cs "a\\nb"), 0 + 1 + ((cs "a\\nb").length + 1), 0, none⟩] :=
  ⟨rfl, rfl, C4_string_backslash_dropped (cs "\"a\\nb\"") 0 (cs "a\\nb") [] rfl rfl⟩

theorem mem_insertByScore (x c : TokenCandidate) (l : List TokenCandidate) :
    x ∈ insertByScore c l ↔ x = c ∨ x ∈ l := by
  induction l with
  | nil => simp [insertByScore]
  | cons d ds ih =>
    unfold insertByScore
    split <;> simp [ih] <;> tauto

theorem mem_sortByScore (x : TokenCandidate) (l : List TokenCandidate) :
    x ∈ sortByScore l ↔ x ∈ l := by
  induction l with
  | nil => simp [sortByScore]
  | cons c cl ih => simp [sortByScore, mem_insertByScore, ih]

theorem insertByScore_ne_nil (c : TokenCandidate) (l : List TokenCandidate) :
    insertByScore c l ≠ [] := by
  cases l with
  | nil => simp [insertByScore]
  | cons d ds => unfold insertByScore; split <;> simp

theorem sortByScore_ne_nil (l : List TokenCandidate) (h : l ≠ []) :
    sortByScore l ≠ [] := by
  cases l with
  | nil => exact absurd rfl h
  | cons c cl => exact insertByScore_ne_nil c (sortByScore cl)

theorem tryFence_pos (input : List Char) (pos : Nat) :
    ∀ c ∈ tryFence input pos, pos < c.endPos := by
  intro c hc
  unfold tryFence at hc
  split at hc
  · dsimp only at hc
    (repeat' split at hc) <;>
      first
      | (simp only [List.mem_singleton] at hc; subst hc; simp; omega)
      | (simp only [List.mem_singleton] at hc; subst hc; simp)
      | simp at hc
  · simp at hc

theorem tryString_pos (input : List Char) (pos : Nat) :
    ∀ c ∈ tryString input pos, pos < c.endPos := by
  intro c hc
  unfold tryString at hc
  dsimp only at hc
  simp only [List.mem_append] at hc
  rcases hc with (hc | hc) | hc <;>
    (repeat' split at hc) <;>
    first
    | (simp only [List.mem_singleton] at hc; subst hc; simp; omega)
    | (simp only [List.mem_singleton] at hc; subst hc; simp)
    | simp at hc

theorem tryNumber_pos (input : List Char) (pos : Nat) :
    ∀ c ∈ tryNumber input pos, pos < c.endPos := by
  intro c hc
  unfold tryNumber at hc
  rcases hdrop : input.drop pos with _ | ⟨a, tl⟩
  · rw [hdrop] at hc; simp at hc
  · rw [hdrop] at hc
    dsimp only at hc
    split at hc
    case isFalse => simp at hc
    case isTrue hcond =>
      by_cases hm : a = '-'
      · subst hm
        simp only [if_pos rfl, List.drop_succ_cons, List.drop_zero] at hc
        split at hc
        · simp at hc
        · split at hc
          · simp only [List.mem_singleton] at hc
            subst hc
            simp
            omega
          · simp at hc
      · simp only [if_neg hm] at hc
        (repeat' split at hc) <;>
          first
          | (simp only [List.mem_singleton] at hc
             subst hc
             simp_all [List.takeWhile_cons]
             omega)
          | (simp only [List.mem_singleton] at hc
             subst hc
             simp_all [List.takeWhile_cons])
          | simp at hc

theorem tryKeyword_pos (input : List Char) (pos : Nat) :
    ∀ c ∈ tryKeyword input pos, pos < c.endPos := by
  unfold tryKeyword
  intro c hc
  simp only [List.mem_append] at hc
  rcases hc with (hc | hc) | hc <;>
    (repeat' split at hc) <;> simp_all <;> omega

theorem isBareStart_isBareCont (c : Char) (h : isBareStart c = true) : isBareCont c = true := by
  simp only [isBareStart, Bool.or_eq_true] at h
  simp only [isBareCont, Bool.or_eq_true]
  tauto

theorem tryBareWord_pos (input : List Char) (pos : Nat) :
    ∀ c ∈ tryBareWord input pos, pos < c.endPos := by
  intro c hc
  unfold tryBareWord at hc
  rcases hdrop : input.drop pos with _ | ⟨a, tl⟩
  · rw [hdrop] at hc; simp at hc
  · rw [hdrop] at hc
    dsimp only at hc
    split at hc
    case isTrue hstart =>
      split at hc
      case isTrue => simp at hc
      case isFalse =>
        simp only [List.mem_singleton] at hc
        subst hc
        have hcont := isBareStart_isBareCont a hstart
        simp [List.takeWhile_cons, hcont]
    case isFalse => simp at hc

theorem tryPunctuation_pos (input : List Char) (pos : Nat) :
    ∀ c ∈ tryPunctuation input pos, pos < c.endPos := by
  unfold tryPunctuation
  intro c hc
  (repeat' split at hc) <;> simp_all

theorem tryWhitespace_pos (input : List Char) (pos : Nat) :
    ∀ c ∈ tryWhitespace input pos, pos < c.endPos := by
  intro c hc
  unfold tryWhitespace at hc
  rcases hdrop : input.drop pos with _ | ⟨a, tl⟩
  · rw [hdrop] at hc; simp at hc
  · rw [hdrop] at hc
    dsimp only at hc
    split at hc
    case isTrue hws =>
      simp only [List.mem_singleton] at hc
      subst hc
      simp [List.takeWhile_cons, hws]
    case isFalse => simp at hc

theorem tryTextChar_pos (input : List Char) (pos : Nat) :
    ∀ c ∈ tryTextChar input pos, pos < c.endPos := by
  unfold tryTextChar
  intro c hc
  (repeat' split at hc) <;> simp_all

theorem tryTextChar_ne_nil (input : List Char) (pos : Nat) (h : pos < input.length) :
    tryTextChar input pos ≠ [] := by
  unfold tryTextChar
  have hne : input.drop pos ≠ [] := by
    rw [ne_eq, List.drop_eq_nil_iff_le]
    omega
  obtain ⟨c, t, heq⟩ := List.exists_cons_of_ne_nil hne
  rw [heq]
  simp

theorem nextTokenCandidates_mem_pos (input : List Char) (pos : Nat) :
    ∀ c ∈ nextTokenCandidates input pos, pos < c.endPos := by
  intro c hc
  unfold nextTokenCandidates at hc
  split at hc
  · simp at hc
  · dsimp only at hc
    rw [mem_sortByScore] at hc
    split at hc
    · exact tryTextChar_pos input pos c hc
    · simp only [List.mem_append] at hc
      rcases hc with ((((((hc | hc) | hc) | hc) | hc) | hc) | hc)
      · exact tryFence_pos input pos c hc
      · exact tryString_pos input pos c hc
      · exact tryNumber_pos input pos c hc
      · exact tryKeyword_pos input pos c hc
      · exact tryBareWord_pos input pos c hc
      · exact tryPunctuation_pos input pos c hc
      · exact tryWhitespace_pos input pos c hc

theorem nextTokenCandidates_ne_nil (input : List Char) (pos : Nat) (h : pos < input.length) :
    nextTokenCandidates input pos ≠ [] := by
  unfold nextTokenCandidates
  have heof : isEOF input pos = false := by
    simp only [isEOF, decide_eq_false_iff_not]
    omega
  rw [heof]
  simp only [Bool.false_eq_true, if_false]
  split
  · exact sortByScore_ne_nil _ (tryTextChar_ne_nil input pos h)
  next hne =>
    apply sortByScore_ne_nil
    intro hnil
    rw [hnil] at hne
    exact hne rfl

theorem afterBest_pos (input : List Char) (pos : Nat) (h : pos < input.length) :
    pos < afterBest input pos := by
  unfold afterBest consumeBest
  rcases hh : (nextTokenCandidates input pos).head? with _ | c
  · exact absurd (List.head?_eq_none_iff.mp hh) (nextTokenCandidates_ne_nil input pos h)
  · dsimp only
    exact nextTokenCandidates_mem_pos input pos c (List.mem_of_mem_head? (Option.mem_def.mpr hh))

theorem iterConsume_eof (input : List Char) :
    ∀ (f pos : Nat), input.length - pos ≤ f →
      isEOF input (iterConsume input f pos) = true := by
  intro f
  induction f with
  | zero =>
    intro pos h
    have hle : input.length ≤ pos := by omega
    simp only [iterConsume]
    simp [isEOF, hle]
  | succ f ih =>
    intro pos h
    unfold iterConsume
    by_cases he : isEOF input pos = true
    · simp [he]
    · have hp : pos < input.length := by
        simp only [isEOF, decide_eq_true_eq] at he
        omega
      rw [if_neg he]
      apply ih
      have hadv := afterBest_pos input pos hp
      omega

/-- **C9** (confirmed).  Strictly before end of input the lexer returns a
non-empty candidate list, every candidate's end position is strictly past the
cursor, `consumeBest` advances the cursor, and iterating `consumeBest` at most
`input.length - pos` times reaches end of input (the O(length) bound). -/
theorem C9_lexer_progress (input : List Char) (pos : Nat) (h : pos < input.length) :
    nextTokenCandidates input pos ≠ [] ∧
    (∀ c ∈ nextTokenCandidates input pos, pos < c.endPos) ∧
    pos < afterBest input pos ∧
    isEOF input (iterConsume input (input.length - pos) pos) = true :=
  ⟨nextTokenCandidates_ne_nil input pos h,
   nextTokenCandidates_mem_pos input pos,
   afterBest_pos input pos h,
   iterConsume_eof input (input.length - pos) pos (Nat.le_refl _)⟩

theorem C9_lexer_progress_witness :
    0 < (cs "hi").length ∧
    (nextTokenCandidates (cs "hi") 0 ≠ [] ∧
     (∀ c ∈ nextTokenCandidates (cs "hi") 0, 0 < c.endPos) ∧
     0 < afterBest (cs "hi") 0 ∧
     isEOF (cs "hi") (iterConsume (cs "hi") ((cs "hi").length - 0) 0) = true) :=
  ⟨by decide, C9_lexer_progress (cs "hi") 0 (by decide)⟩

theorem dropWhile_head_false (p : Char → Bool) (l : List Char) :
    ∀ a, (l.dropWhile p).head? = some a → p a = false := by
  induction l with
  | nil => intro a h; simp at h
  | cons c r ih =>
    intro a h
    rw [List.dropWhile_cons] at h
    split at h
    · exact ih a h
    · next hpc =>
      simp only [List.head?_cons, Option.some.injEq] at h
      subst h
      exact Bool.eq_false_iff.mpr hpc

theorem dropWhile_ws_idem (l : List Char) :
    (l.dropWhile isJsWs).dropWhile isJsWs = l.dropWhile isJsWs := by
  rcases hd : l.dropWhile isJsWs with _ | ⟨b, t⟩
  · rfl
  · have hpb : isJsWs b = false := dropWhile_head_false isJsWs l b (by rw [hd]; rfl)
    rw [List.dropWhile_cons, if_neg (by simp [hpb])]

theorem jsTrim_prefix_dropWhile (l : List Char) : jsTrim l <+: l.dropWhile isJsWs := by
  unfold jsTrim
  have hs : ((l.dropWhile isJsWs).reverse).dropWhile isJsWs <:+ (l.dropWhile isJsWs).reverse :=
    List.dropWhile_suffix _
  have h2 := hs.reverse
  rwa [List.reverse_reverse] at h2

theorem jsTrim_head_false (l : List Char) (a : Char) (h : (jsTrim l).head? = some a) :
    isJsWs a = false := by
  obtain ⟨r, hr⟩ := jsTrim_prefix_dropWhile l
  apply dropWhile_head_false isJsWs l a
  rw [← hr]
  rcases hz : jsTrim l with _ | ⟨b, t⟩
  · rw [hz] at h; simp at h
  · rw [hz] at h
    simp only [List.head?_cons, Option.some.injEq] at h
    simp [h]

theorem jsTrim_dropWhile_eq (l : List Char) : (jsTrim l).dropWhile isJsWs = jsTrim l := by
  rcases hz : jsTrim l with _ | ⟨a, t⟩
  · rfl
  · have hpa : isJsWs a = false := jsTrim_head_false l a (by rw [hz]; rfl)
    rw [List.dropWhile_cons, if_neg (by simp [hpa])]

theorem jsTrim_idem (l : List Char) : jsTrim (jsTrim l) = jsTrim l := by
  have h1 : jsTrim (jsTrim l) =
      ((((jsTrim l).dropWhile isJsWs).reverse).dropWhile isJsWs).reverse := rfl
  rw [h1, jsTrim_dropWhile_eq]
  have h2 : (jsTrim l).reverse = ((l.dropWhile isJsWs).reverse).dropWhile isJsWs := by
    unfold jsTrim
    rw [List.reverse_reverse]
  rw [h2, dropWhile_ws_idem]
  rfl

theorem tryParseFencedJSON_blocks (input : List Char) (f : Nat) (path p : ParsePath)
    (h : (tryParseFencedJSON input f path).1 = some p) :
    ∃ r, p.blocks = path.blocks ++ [.objectCandidate r] := by
  unfold tryParseFencedJSON at h
  repeat'
    first
    | split at h
    | (rw [apply_ite Prod.fst] at h
       try dsimp only at h)
  all_goals
    first
    | (dsimp only at h
       simp only [Option.some.injEq] at h
       subst h
       exact ⟨_, rfl⟩)
    | (simp only [Option.some.injEq] at h
       subst h
       exact ⟨_, rfl⟩)
    | simp at h

theorem tryParseFencedYAML_blocks (input : List Char) (f : Nat) (path p : ParsePath)
    (h : (tryParseFencedYAML input f path).1 = some p) :
    ∃ r, p.blocks = path.blocks ++ [.objectCandidate r] := by
  unfold tryParseFencedYAML at h
  repeat'
    first
    | split at h
    | (rw [apply_ite Prod.fst] at h
       try dsimp only at h)
  all_goals
    first
    | (dsimp only at h
       simp only [Option.some.injEq] at h
       subst h
       exact ⟨_, rfl⟩)
    | (simp only [Option.some.injEq] at h
       subst h
       exact ⟨_, rfl⟩)
    | simp at h

theorem tryParseJSONObject_blocks (input : List Char) (f : Nat) (path p : ParsePath)
    (h : (tryParseJSONObject input f path).1 = some p) :
    ∃ r, p.blocks = path.blocks ++ [.objectCandidate r] := by
  unfold tryParseJSONObject at h
  repeat'
    first
    | split at h
    | (rw [apply_ite Prod.fst] at h
       try dsimp only at h)
  all_goals
    first
    | (dsimp only at h
       simp only [Option.some.injEq] at h
       subst h
       exact ⟨_, rfl⟩)
    | (simp only [Option.some.injEq] at h
       subst h
       exact ⟨_, rfl⟩)
    | simp at h

theorem tryParseYAMLObject_blocks (input : List Char) (f : Nat) (path p : ParsePath)
    (h : (tryParseYAMLObject input f path).1 = some p) :
    ∃ r, p.blocks = path.blocks ++ [.objectCandidate r] := by
  unfold tryParseYAMLObject at h
  repeat'
    first
    | split at h
    | (rw [apply_ite Prod.fst] at h
       try dsimp only at h)
  all_goals
    first
    | (dsimp only at h
       simp only [Option.some.injEq] at h
       subst h
       exact ⟨_, rfl⟩)
    | (simp only [Option.some.injEq] at h
       subst h
       exact ⟨_, rfl⟩)
    | simp at h

theorem tryParseObjectBlock_blocks (input : List Char) (f : Nat) (path p : ParsePath)
    (h : (tryParseObjectBlock input f path).1 = some p) :
    ∃ r, p.blocks = path.blocks ++ [.objectCandidate r] := by
  unfold tryParseObjectBlock at h
  dsimp only at h
  split at h
  · simp at h
  next p0 ps heq =>
    simp only [Option.some.injEq] at h
    have hmem : p ∈ p0 :: ps := by
      rw [← h]
      exact foldl_pick_mem ps p0
    rw [← heq] at hmem
    simp only [List.mem_filterMap, List.mem_cons, List.not_mem_nil, or_false, id_eq] at hmem
    obtain ⟨a, ha, hap⟩ := hmem
    subst hap
    rcases ha with h1 | h1 | h1 | h1
    · exact tryParseFencedJSON_blocks input f path p h1.symm
    · exact tryParseFencedYAML_blocks input f path p h1.symm
    · exact tryParseJSONObject_blocks input f path p h1.symm
    · exact tryParseYAMLObject_blocks input f path p h1.symm

theorem parseTextBlock_blocks (input : List Char) (f : Nat) (path q : ParsePath)
    (h : (parseTextBlock input f path).1 = some q) :
    ∃ u, q.blocks = path.blocks ++ [.text (jsTrim u)] ∧ (jsTrim u).length ≠ 0 := by
  unfold parseTextBlock at h
  dsimp only at h
  split at h
  · simp at h
  next hlen =>
    dsimp only at h
    simp only [Option.some.injEq] at h
    subst h
    exact ⟨(textScan input f path.position).1, rfl, hlen⟩

theorem docStep_blocks (input : List Char) (f : Nat) (s : DocState) :
    (docStep input f s).path.blocks = s.path.blocks ∨
    (∃ r, (docStep input f s).path.blocks = s.path.blocks ++ [.objectCandidate r]) ∨
    (∃ u, (docStep input f s).path.blocks = s.path.blocks ++ [.text (jsTrim u)] ∧
      (jsTrim u).length ≠ 0) := by
  unfold docStep
  dsimp only
  rcases ho : (tryParseObjectBlock input f s.path).1 with _ | p
  · dsimp only
    rcases ht : (parseTextBlock input f s.path).1 with _ | q
    · dsimp only
      left
      rfl
    · dsimp only
      right; right
      exact parseTextBlock_blocks input f s.path q ht
  · dsimp only
    right; left
    exact tryParseObjectBlock_blocks input f s.path p ho

theorem docLoop_text_inv (input : List Char) :
    ∀ (f : Nat) (s : DocState),
      (∀ t, SegmentedBlock.text t ∈ s.path.blocks → jsTrim t = t ∧ t ≠ []) →
      ∀ t, SegmentedBlock.text t ∈ (docLoop input f s).path.blocks → jsTrim t = t ∧ t ≠ [] := by
  intro f
  induction f with
  | zero =>
    intro s hs
    simpa [docLoop] using hs
  | succ f ih =>
    intro s hs
    unfold docLoop
    split
    · exact hs
    · apply ih
      intro t ht
      rcases docStep_blocks input (segFuel input) s with hb | ⟨r, hb⟩ | ⟨u, hb, hu⟩
      · rw [hb] at ht
        exact hs t ht
      · rw [hb] at ht
        rcases List.mem_append.mp ht with h1 | h1
        · exact hs t h1
        · simp at h1
      · rw [hb] at ht
        rcases List.mem_append.mp ht with h1 | h1
        · exact hs t h1
        · simp at h1
          subst h1
          refine ⟨jsTrim_idem u, fun hnil => hu ?_⟩
          rw [hnil]
          rfl

/-- **C5** (amended).  The true segmenter invariant on text: every emitted
TextBlock is whitespace-trimmed and non-empty.  (Maximality fails — adjacent
TextBlocks do occur, see the counterexample — because a failed object-start
attempt swallows the opener and splits the surrounding narration.) -/
theorem C5_text_blocks_trimmed_nonempty (input : List Char) (t : List Char)
    (h : SegmentedBlock.text t ∈ segment input) :
    jsTrim t = t ∧ t ≠ [] := by
  unfold segment at h
  exact docLoop_text_inv input (2 * input.length + 4) ⟨⟨[], 0, [], 0⟩, 0⟩
    (by intro t ht; simp at ht) t h

theorem C5_text_blocks_trimmed_nonempty_witness :
    SegmentedBlock.text (cs "hi") ∈ segment (cs "hi") ∧
    (jsTrim (cs "hi") = cs "hi" ∧ cs "hi" ≠ []) :=
  have hm : SegmentedBlock.text (cs "hi") ∈ segment (cs "hi") := by
    rw [show segment (cs "hi") = [SegmentedBlock.text (cs "hi")] from rfl]
    exact List.mem_singleton.mpr rfl
  ⟨hm, C5_text_blocks_trimmed_nonempty (cs "hi") (cs "hi") hm⟩

end Sloppy
